import Mathlib

/-!
Shallow embedding of `graphovl.py`, a script that reconstructs a directed
call/transition graph from the source text of one actor overlay file.
Python strings are modelled as `List Char`, Python `dict` as an
insertion-ordered association list with overwrite-on-insert, Python
exceptions as `Except String`.  The handful of regular expressions the
script uses are simple enough to be replayed by deterministic scanners
(each pattern's character classes are disjoint from the literal that
follows, so the greedy/lazy quantifiers never need general backtracking);
`re.finditer`'s leftmost, non-overlapping scan is reproduced by trying the
anchored matcher at every position and resuming after each match.
-/

set_option maxRecDepth 4096

abbrev PyStr := List Char

def lbrace : Char := Char.ofNat 123

def rbrace : Char := Char.ofNat 125

/-- Characters of the regex class `[a-zA-Z_\d]` (re's `\w`-like class used in the script). -/
def isWordChar (c : Char) : Bool :=
  (('a' ≤ c && c ≤ 'z') || ('A' ≤ c && c ≤ 'Z') || ('0' ≤ c && c ≤ '9') || c = '_')

/-- Python `str.strip()` whitespace set (ASCII part). -/
def isPySpace (c : Char) : Bool :=
  (c = ' ' || c = '\t' || c = '\n' || c = '\r' || c = Char.ofNat 11 || c = Char.ofNat 12)

/-- Python `s.strip()`. -/
def stripChars (s : PyStr) : PyStr :=
  ((s.dropWhile isPySpace).reverse.dropWhile isPySpace).reverse

def isPrefixChars : PyStr → PyStr → Bool
  | [], _ => true
  | _ :: _, [] => false
  | a :: as, b :: bs => a = b && isPrefixChars as bs

/-- Python `sub in s` (substring containment). -/
def containsSub (sub : PyStr) : PyStr → Bool
  | [] => isPrefixChars sub []
  | s@(_ :: rest) => isPrefixChars sub s || containsSub sub rest

/-- Python `s.endswith(sfx)`. -/
def endsWithChars (sfx s : PyStr) : Bool :=
  isPrefixChars sfx.reverse s.reverse

/-- Index of the first occurrence of `sub` in `s` (Python `s.index(sub)` when it exists). -/
def firstIdxOfSub (sub : PyStr) : PyStr → Option Nat
  | [] => if isPrefixChars sub [] then some 0 else none
  | s@(_ :: rest) =>
    if isPrefixChars sub s then some 0 else (firstIdxOfSub sub rest).map (· + 1)

def splitOnSubAux (sep : PyStr) : Nat → PyStr → PyStr → List PyStr
  | 0, acc, rest => [acc.reverse ++ rest]
  | _ + 1, acc, [] => [acc.reverse]
  | fuel + 1, acc, s@(c :: rest) =>
    if isPrefixChars sep s then
      acc.reverse :: splitOnSubAux sep fuel [] (s.drop sep.length)
    else
      splitOnSubAux sep fuel (c :: acc) rest

/-- Python `s.split(sep)` for a nonempty separator (left-to-right, non-overlapping). -/
def splitOnSub (sep s : PyStr) : List PyStr :=
  if sep.isEmpty then [s] else splitOnSubAux sep (s.length + 1) [] s

def replaceSubAux (pat rep : PyStr) : Nat → PyStr → PyStr
  | 0, rest => rest
  | _ + 1, [] => []
  | fuel + 1, s@(c :: rest) =>
    if isPrefixChars pat s then
      rep ++ replaceSubAux pat rep fuel (s.drop pat.length)
    else
      c :: replaceSubAux pat rep fuel rest

/-- Python `s.replace(pat, rep)` for a nonempty pattern. -/
def replaceSub (pat rep s : PyStr) : PyStr :=
  if pat.isEmpty then s else replaceSubAux pat rep (s.length + 1) s

/-- Python `s.split(sep, 1)` restricted to a one-character separator: `none` when the
separator does not occur (the caller's 2-tuple unpacking would then raise). -/
def splitOnceChar (sep : Char) : PyStr → Option (PyStr × PyStr)
  | [] => none
  | c :: rest =>
    if c = sep then some ([], rest)
    else (splitOnceChar sep rest).map (fun p => (c :: p.1, p.2))

/-- Python `s.split(sep)[0]` for a one-character separator. -/
def takeBeforeChar (sep : Char) (s : PyStr) : PyStr :=
  s.takeWhile (· ≠ sep)

def countChar (c : Char) (s : PyStr) : Nat :=
  (s.filter (· = c)).length

/-- Python `list.index` (first occurrence). -/
def pyIndexOf (x : PyStr) : List PyStr → Option Nat
  | [] => none
  | y :: rest => if y = x then some 0 else (pyIndexOf x rest).map (· + 1)

/-- Python list indexing with an `Int` index (negative indices wrap once from the end). -/
def pyListGet (l : List PyStr) (i : Int) : Option PyStr :=
  if 0 ≤ i then l[i.toNat]?
  else if 0 ≤ i + l.length then l[(i + l.length).toNat]? else none

def natToStrAux : Nat → Nat → PyStr
  | 0, _ => []
  | _ + 1, 0 => []
  | fuel + 1, n => natToStrAux fuel (n / 10) ++ [Char.ofNat (48 + n % 10)]

/-- Python `str` of a nonnegative integer. -/
def natToStr (n : Nat) : PyStr :=
  if n = 0 then ['0'] else natToStrAux (n + 1) n

/-- Python `str` of an `int`. -/
def intToStr (i : Int) : PyStr :=
  if i < 0 then '-' :: natToStr i.natAbs else natToStr i.toNat

def digitVal (c : Char) : Nat := c.toNat - 48

def isHexDigit (c : Char) : Bool :=
  (('0' ≤ c && c ≤ '9') || ('a' ≤ c && c ≤ 'f') || ('A' ≤ c && c ≤ 'F'))

def hexVal (c : Char) : Nat :=
  if '0' ≤ c && c ≤ '9' then c.toNat - 48
  else if 'a' ≤ c && c ≤ 'f' then c.toNat - 87
  else c.toNat - 55

def digitsToNat (base : Nat) (val : Char → Nat) (ds : PyStr) : Nat :=
  ds.foldl (fun acc c => acc * base + val c) 0

/-- Python `int(s)` (base 10): optional surrounding whitespace, optional sign,
one or more decimal digits (underscore grouping is not modelled). -/
def pyParseInt (s : PyStr) : Option Int :=
  let t := stripChars s
  let (sign, u) : Int × PyStr :=
    match t with
    | '-' :: r => (-1, r)
    | '+' :: r => (1, r)
    | _ => (1, t)
  if u.isEmpty then none
  else if u.all (fun c => '0' ≤ c && c ≤ '9') then
    some (sign * (digitsToNat 10 digitVal u : Nat))
  else none

/-- The unsigned part of Python `int(s, 0)` — a C-style integer literal:
`0x`/`0o`/`0b` prefixes or a decimal literal whose leading digit is nonzero (a
run of zeros denotes 0); underscore grouping is not modelled. -/
def pyParseIntBase0Core (sign : Int) (u : PyStr) : Option Int :=
  match u with
  | [] => none
  | d :: ds =>
    if d = '0' then
      match ds with
      | [] => some 0
      | x :: ds2 =>
        if (x = 'x' || x = 'X') && decide (ds2 ≠ []) && ds2.all isHexDigit then
          some (sign * (digitsToNat 16 hexVal ds2 : Nat))
        else if (x = 'o' || x = 'O') && decide (ds2 ≠ []) && ds2.all (fun c => '0' ≤ c && c ≤ '7') then
          some (sign * (digitsToNat 8 digitVal ds2 : Nat))
        else if (x = 'b' || x = 'B') && decide (ds2 ≠ []) && ds2.all (fun c => c = '0' || c = '1') then
          some (sign * (digitsToNat 2 digitVal ds2 : Nat))
        else if (x :: ds2).all (fun c => c = '0') then some 0
        else none
    else if ('1' ≤ d && d ≤ '9') && ds.all (fun c => '0' ≤ c && c ≤ '9') then
      some (sign * (digitsToNat 10 digitVal (d :: ds) : Nat))
    else none

/-- Python `int(s, 0)`: optional surrounding whitespace and sign, then a
C-style integer literal as in `pyParseIntBase0Core`. -/
def pyParseIntBase0 (s : PyStr) : Option Int :=
  let t := stripChars s
  let sign : Int := if t.head? = some '-' then -1 else 1
  let u := if t.head? = some '-' ∨ t.head? = some '+' then t.tail else t
  pyParseIntBase0Core sign u

/-! ### Anchored matchers for the script's regular expressions -/

/-- The optional trailing-member group `(\.[^\)]*\))?` of `func_call_regexpr`. -/
def matchMemberTail : PyStr → Option (PyStr × PyStr)
  | '.' :: rest =>
    let a := rest.takeWhile (· != ')')
    match rest.dropWhile (· != ')') with
    | ')' :: r2 => some ('.' :: (a ++ [')']), r2)
    | _ => none
  | _ => none

/-- The core `[a-zA-Z_\d]+\([^\)]*\)` shared by call and definition patterns. -/
def matchCallCore (s : PyStr) : Option (PyStr × PyStr) :=
  let w := s.takeWhile isWordChar
  if w.isEmpty then none
  else
    match s.dropWhile isWordChar with
    | '(' :: r2 =>
      let a := r2.takeWhile (· != ')')
      match r2.dropWhile (· != ')') with
      | ')' :: r4 => some (w ++ '(' :: (a ++ [')']), r4)
      | _ => none
    | _ => none

/-- Anchored match of `func_call_regexpr = [a-zA-Z_\d]+\([^\)]*\)(\.[^\)]*\))?`. -/
def matchFuncCallAt (s : PyStr) : Option (PyStr × PyStr) :=
  match matchCallCore s with
  | none => none
  | some (m, r) =>
    match matchMemberTail r with
    | some (t, r2) => some (m ++ t, r2)
    | none => some (m, r)

/-- The literal ` {[^}]` suffix of `func_defs_regexpr`. -/
def matchSpaceBrace : PyStr → Option (PyStr × PyStr)
  | ' ' :: c :: d :: r =>
    if c = lbrace && d ≠ rbrace then some ([' ', c, d], r) else none
  | _ => none

/-- Anchored match of `func_defs_regexpr = [a-zA-Z_\d]+\([^\)]*\)(\.[^\)]*\))? {[^}]`
(the optional member group backtracks to empty when ` {` does not follow it). -/
def matchFuncDefAt (s : PyStr) : Option (PyStr × PyStr) :=
  match matchCallCore s with
  | none => none
  | some (m, r) =>
    match matchMemberTail r with
    | some (t, r2) =>
      (match matchSpaceBrace r2 with
       | some (b, r3) => some (m ++ t ++ b, r3)
       | none =>
         match matchSpaceBrace r with
         | some (b, r3) => some (m ++ b, r3)
         | none => none)
    | none =>
      match matchSpaceBrace r with
      | some (b, r3) => some (m ++ b, r3)
      | none => none

/-- `re.finditer`: leftmost, non-overlapping matches, resuming after each match.
Every matcher used here consumes at least one character, so `s.length` fuel suffices. -/
def finditerAux {α : Type} (m : PyStr → Option (α × PyStr)) : Nat → PyStr → List α
  | 0, _ => []
  | _ + 1, [] => []
  | fuel + 1, s@(_ :: rest) =>
    match m s with
    | some (a, r) => a :: finditerAux m fuel r
    | none => finditerAux m fuel rest

def pyFinditer {α : Type} (m : PyStr → Option (α × PyStr)) (s : PyStr) : List α :=
  finditerAux m s.length s

/-- `re.match`: anchored at the start only. -/
def pyMatchAt {α : Type} (m : PyStr → Option (α × PyStr)) (s : PyStr) : Option α :=
  (m s).map Prod.fst

/-- One captured `#define`: name, optional `(param)` text, raw body text. -/
structure MacroDefMatch where
  name : PyStr
  paramsTxt : Option PyStr
  body : PyStr
deriving DecidableEq, Repr

/-- The lazy body group `(.+?)` followed by the terminator `(\n|//|/\*)`:
grows one non-newline character at a time, stopping at the first terminator
after at least one character; the terminator is part of the match. -/
def lazyBodyAux : Nat → PyStr → PyStr → Option (PyStr × PyStr)
  | 0, _, _ => none
  | fuel + 1, acc, s =>
    match s with
    | [] => none
    | c :: rest =>
      if acc.isEmpty then
        if c = '\n' then none else lazyBodyAux fuel [c] rest
      else if c = '\n' then some (acc.reverse, rest)
      else if isPrefixChars ['/', '/'] s then some (acc.reverse, s.drop 2)
      else if isPrefixChars ['/', '*'] s then some (acc.reverse, s.drop 2)
      else lazyBodyAux fuel (c :: acc) rest

/-- Whitespace-then-body tail shared by both `#define` forms. -/
def matchMacroTail (nm : PyStr) (ps : Option PyStr) (r : PyStr) : Option (MacroDefMatch × PyStr) :=
  if (r.takeWhile isPySpace).isEmpty then none
  else
    match lazyBodyAux (r.length + 1) [] (r.dropWhile isPySpace) with
    | some (b, rest) => some (⟨nm, ps, b⟩, rest)
    | none => none

/-- Anchored match of
`macrosRegexpr = #define\s+([a-zA-Z_\d]+)(\([a-zA-Z_\d]+\))?\s+(.+?)(\n|//|/\*)`.
The parameter group admits a single identifier and no comma; when a `(` follows
the name but the group cannot match, the mandatory `\s+` fails on that `(`
and the whole match fails (no backtracking path can rescue it). -/
def matchMacroDefAt (s : PyStr) : Option (MacroDefMatch × PyStr) :=
  if isPrefixChars ("#define").data s then
    let r0 := s.drop 7
    if (r0.takeWhile isPySpace).isEmpty then none
    else
      let r1 := r0.dropWhile isPySpace
      let nm := r1.takeWhile isWordChar
      if nm.isEmpty then none
      else
        let r2 := r1.dropWhile isWordChar
        match r2 with
        | '(' :: r3 =>
          let p := r3.takeWhile isWordChar
          if p.isEmpty then none
          else
            (match r3.dropWhile isWordChar with
             | ')' :: r4 => matchMacroTail nm (some ('(' :: (p ++ [')']))) r4
             | _ => none)
        | _ => matchMacroTail nm none r2
  else none

/-- Anchored match of `enumsRegexpr = enum\s+\{([^\}]+?)\}`, returning the block body. -/
def matchEnumAt (s : PyStr) : Option (PyStr × PyStr) :=
  if isPrefixChars ("enum").data s then
    let r0 := s.drop 4
    if (r0.takeWhile isPySpace).isEmpty then none
    else
      match r0.dropWhile isPySpace with
      | c :: r1 =>
        if c = lbrace then
          let b := r1.takeWhile (· != rbrace)
          if b.isEmpty then none
          else
            (match r1.dropWhile (· != rbrace) with
             | _ :: r2 => some (b, r2)
             | [] => none)
        else none
      | [] => none
  else none

/-- Anchored match of `indirectCallRegexpr = (this->[a-zA-Z_\d]+)\s*=\s*([a-zA-Z_\d]+);`,
returning the two groups (member with its `this->` prefix, assigned name). -/
def matchIndirectAt (s : PyStr) : Option ((PyStr × PyStr) × PyStr) :=
  if isPrefixChars ("this->").data s then
    let r0 := s.drop 6
    let m := r0.takeWhile isWordChar
    if m.isEmpty then none
    else
      match (r0.dropWhile isWordChar).dropWhile isPySpace with
      | '=' :: r2 =>
        let r3 := r2.dropWhile isPySpace
        let v := r3.takeWhile isWordChar
        if v.isEmpty then none
        else
          (match r3.dropWhile isWordChar with
           | ';' :: r4 => some ((("this->").data ++ m, v), r4)
           | _ => none)
      | _ => none
  else none

/-- The `\([^\)]*\)(\.[^\)]*\))?;` tail of the SetupAction/SetAction patterns
(the optional member group backtracks to empty when `;` does not follow it). -/
def matchActionCallTail (r : PyStr) : Option (PyStr × PyStr) :=
  match r with
  | '(' :: r2 =>
    let a := r2.takeWhile (· != ')')
    (match r2.dropWhile (· != ')') with
     | ')' :: r4 =>
       let core := '(' :: (a ++ [')'])
       (match matchMemberTail r4 with
        | some (t, r5) =>
          (match r5 with
           | ';' :: r6 => some (core ++ t ++ [';'], r6)
           | _ =>
             match r4 with
             | ';' :: r6 => some (core ++ [';'], r6)
             | _ => none)
        | none =>
          match r4 with
          | ';' :: r6 => some (core ++ [';'], r6)
          | _ => none)
     | _ => none)
  | _ => none

/-- Anchored match of `setupaction_regexpr = _SetupAction+\([^\)]*\)(\.[^\)]*\))?;`
(the `+` binds to the final `n` of the literal). -/
def matchSetupActionAt (s : PyStr) : Option (PyStr × PyStr) :=
  if isPrefixChars ("_SetupActio").data s then
    let r0 := s.drop 11
    let ns := r0.takeWhile (· == 'n')
    if ns.isEmpty then none
    else
      match matchActionCallTail (r0.dropWhile (· == 'n')) with
      | some (t, r) => some (("_SetupActio").data ++ ns ++ t, r)
      | none => none
  else none

/-- Anchored match of `setaction_regexpr = _SetAction+\([^\)]*\)(\.[^\)]*\))?;`. -/
def matchSetActionAt (s : PyStr) : Option (PyStr × PyStr) :=
  if isPrefixChars ("_SetActio").data s then
    let r0 := s.drop 9
    let ns := r0.takeWhile (· == 'n')
    if ns.isEmpty then none
    else
      match matchActionCallTail (r0.dropWhile (· == 'n')) with
      | some (t, r) => some (("_SetActio").data ++ ns ++ t, r)
      | none => none
  else none

/-- Anchored match of the dynamically built pattern `re.compile(action_var + ' = (.)*')`,
with the dispatch-variable text taken as a literal (the variables the script builds
this pattern from contain no regex metacharacters). -/
def matchAssignAt (avar : PyStr) (s : PyStr) : Option (PyStr × PyStr) :=
  let pat := avar ++ (" = ").data
  if isPrefixChars pat s then
    let r0 := s.drop pat.length
    some (pat ++ r0.takeWhile (· != '\n'), r0.dropWhile (· != '\n'))
  else none

/-! ### Lexical extractor (`capture_*`) -/

/-- `capture_calls`: all function-call-like tokens, with argument text. -/
def capture_calls (content : PyStr) : List PyStr :=
  pyFinditer matchFuncCallAt content

/-- `capture_call_names`: `x.group().split("(")[0]` for every call match. -/
def capture_call_names (content : PyStr) : List PyStr :=
  (pyFinditer matchFuncCallAt content).map (takeBeforeChar '(')

/-- `capture_definitions`: all function-definition-like tokens. -/
def capture_definitions (content : PyStr) : List PyStr :=
  pyFinditer matchFuncDefAt content

/-- `capture_definition_names`: the name part of every definition match. -/
def capture_definition_names (content : PyStr) : List PyStr :=
  (capture_definitions content).map (takeBeforeChar '(')

/-- Shared loop of `capture_setupaction_call_arg` / `capture_setaction_call_arg`:
`x.group().split(",")[argIdx].strip().split(");")[0].strip()`, deduplicated;
a match with too few commas makes the `[argIdx]` subscript raise. -/
def actionArgsLoop (argIdx : Nat) : List PyStr → List PyStr → Except String (List PyStr)
  | acc, [] => .ok acc
  | acc, m :: rest =>
    match (splitOnSub [','] m)[argIdx]? with
    | none => .error "IndexError: list index out of range"
    | some p =>
      let func := stripChars ((splitOnSub (");").data (stripChars p)).headD [])
      actionArgsLoop argIdx (if func ∈ acc then acc else acc ++ [func]) rest

def capture_setupaction_call_arg (content : PyStr) : Except String (List PyStr) :=
  actionArgsLoop 1 [] (pyFinditer matchSetupActionAt content)

def capture_setaction_call_arg (content : PyStr) : Except String (List PyStr) :=
  actionArgsLoop 2 [] (pyFinditer matchSetActionAt content)

/-! ### Python dict as insertion-ordered association list -/

def dictInsert {α : Type} (k : PyStr) (v : α) : List (PyStr × α) → List (PyStr × α)
  | [] => [(k, v)]
  | (k', v') :: rest => if k' = k then (k, v) :: rest else (k', v') :: dictInsert k v rest

def dictGet {α : Type} (d : List (PyStr × α)) (k : PyStr) : Option α :=
  (d.find? (fun p => p.1 == k)).map Prod.snd

/-! ### Restricted model of Python `eval` on arithmetic expressions -/

def skipPySpaces (s : PyStr) : PyStr := s.dropWhile isPySpace

def isDecDigit (c : Char) : Bool := ('0' ≤ c && c ≤ '9')

/-- A Python 3 integer literal, consumed from the front: `0x`/`0o`/`0b` forms or a
decimal literal (leading zeros only as an all-zero run). -/
def parsePyNumber (s : PyStr) : Option (Int × PyStr) :=
  match s with
  | '0' :: x :: rest =>
    if x = 'x' || x = 'X' then
      let ds := rest.takeWhile isHexDigit
      if ds.isEmpty then none
      else some ((digitsToNat 16 hexVal ds : Nat), rest.dropWhile isHexDigit)
    else if x = 'o' || x = 'O' then
      let ds := rest.takeWhile (fun c => '0' ≤ c && c ≤ '7')
      if ds.isEmpty then none
      else some ((digitsToNat 8 digitVal ds : Nat), rest.dropWhile (fun c => '0' ≤ c && c ≤ '7'))
    else if x = 'b' || x = 'B' then
      let ds := rest.takeWhile (fun c => c = '0' || c = '1')
      if ds.isEmpty then none
      else some ((digitsToNat 2 digitVal ds : Nat), rest.dropWhile (fun c => c = '0' || c = '1'))
    else
      let ds := ('0' :: x :: rest).takeWhile isDecDigit
      if ds.all (fun d => d = '0') then some (0, ('0' :: x :: rest).dropWhile isDecDigit)
      else none
  | c :: rest =>
    if isDecDigit c then
      let ds := (c :: rest).takeWhile isDecDigit
      if c = '0' then
        (if ds.all (fun d => d = '0') then some (0, (c :: rest).dropWhile isDecDigit) else none)
      else some ((digitsToNat 10 digitVal ds : Nat), (c :: rest).dropWhile isDecDigit)
    else none
  | [] => none

/-- Recursive-descent evaluator for the integer `+`, `-`, `*`, unary-sign and
parenthesis fragment of Python expression syntax. `lvl` selects the grammar
production (0 sum, 10 sum-loop, 1 product, 11 product-loop, 2 unary, 3 atom);
`acc` is the left operand inside the loop productions. -/
def parseE : Nat → Nat → Int → PyStr → Option (Int × PyStr)
  | 0, _, _, _ => none
  | fuel + 1, 0, _, s =>
    (match parseE fuel 1 0 s with
     | some (v, r) => parseE fuel 10 v r
     | none => none)
  | fuel + 1, 10, acc, s =>
    (match skipPySpaces s with
     | '+' :: r =>
       (match parseE fuel 1 0 r with
        | some (v, r2) => parseE fuel 10 (acc + v) r2
        | none => none)
     | '-' :: r =>
       (match parseE fuel 1 0 r with
        | some (v, r2) => parseE fuel 10 (acc - v) r2
        | none => none)
     | _ => some (acc, s))
  | fuel + 1, 1, _, s =>
    (match parseE fuel 2 0 s with
     | some (v, r) => parseE fuel 11 v r
     | none => none)
  | fuel + 1, 11, acc, s =>
    (match skipPySpaces s with
     | '*' :: r =>
       (match parseE fuel 2 0 r with
        | some (v, r2) => parseE fuel 11 (acc * v) r2
        | none => none)
     | _ => some (acc, s))
  | fuel + 1, 2, _, s =>
    (match skipPySpaces s with
     | '-' :: r => (parseE fuel 2 0 r).map (fun p => (-p.1, p.2))
     | '+' :: r => parseE fuel 2 0 r
     | s2 => parseE fuel 3 0 s2)
  | fuel + 1, 3, _, s =>
    (match skipPySpaces s with
     | '(' :: r =>
       (match parseE fuel 0 0 r with
        | some (v, r2) =>
          (match skipPySpaces r2 with
           | ')' :: r3 => some (v, r3)
           | _ => none)
        | none => none)
     | s2 => parsePyNumber s2)
  | _ + 1, _, _, _ => none

/-- Python `eval` restricted to the integer arithmetic the script feeds it
(macro bodies and dispatch-index expressions). Anything outside the modelled
fragment — names, floats, other operators — is an evaluation failure, which the
script catches and turns into a warning plus a `None` value. -/
def pyEvalArith (s : PyStr) : Option Int :=
  match parseE (4 * s.length + 64) 0 0 s with
  | some (v, r) => if (skipPySpaces r).isEmpty then some v else none
  | none => none

/-! ### Enum resolver (`EnumContainer`) -/

structure EnumDef where
  name : PyStr
  value : Int
deriving DecidableEq, Repr

structure EnumContainer where
  enums : List (PyStr × EnumDef)
deriving DecidableEq, Repr

/-- `EnumContainer.get`: the member's value as decimal text, else `None`. -/
def EnumContainer.get (e : EnumContainer) (enumName : PyStr) : Option PyStr :=
  (dictGet e.enums enumName).map (fun d => intToStr d.value)

/-- `EnumContainer.getDefault`. -/
def EnumContainer.getDefault (e : EnumContainer) (enumName dflt : PyStr) : PyStr :=
  match dictGet e.enums enumName with
  | some d => intToStr d.value
  | none => dflt

/-- Comment removal and trimming applied to one comma-separated enum fragment. -/
def cleanEnumFragment (v0 : PyStr) : PyStr :=
  let v1 :=
    if containsSub ['/', '*'] v0 && containsSub ['*', '/'] v0 then
      v0.take ((firstIdxOfSub ['/', '*'] v0).getD 0) ++
        v0.drop ((firstIdxOfSub ['*', '/'] v0).getD 0 + 2)
    else v0
  let v2 :=
    if containsSub ['/', '/'] v1 then v1.take ((firstIdxOfSub ['/', '/'] v1).getD 0) else v1
  stripChars v2

/-- One iteration of the member loop of `EnumContainer.getEnums`: the pair is the
container built so far and the running `enumValue` counter; an explicit value is
resolved against the container first and then parsed with `int(_, 0)`, whose
failure raises out of the whole resolution. -/
def processEnumFragment (acc : EnumContainer × Int) (varRaw : PyStr) : Except String (EnumContainer × Int) :=
  let var := cleanEnumFragment varRaw
  if var.isEmpty then .ok acc
  else
    let exprList := splitOnSub ['='] var
    if exprList.length > 1 then
      let enumName := stripChars (exprList.headD [])
      let valueExpr := stripChars (exprList[1]?.getD [])
      let valueExpr := acc.1.getDefault valueExpr valueExpr
      match pyParseIntBase0 valueExpr with
      | none => .error "ValueError: invalid literal for int"
      | some v => .ok (⟨dictInsert enumName ⟨enumName, v⟩ acc.1.enums⟩, v + 1)
    else .ok (⟨dictInsert var ⟨var, acc.2⟩ acc.1.enums⟩, acc.2 + 1)

def processEnumBlockLoop : EnumContainer × Int → List PyStr → Except String (EnumContainer × Int)
  | acc, [] => .ok acc
  | acc, f :: rest =>
    match processEnumFragment acc f with
    | .error e => .error e
    | .ok acc2 => processEnumBlockLoop acc2 rest

/-- One `enum { ... }` block: comma split, counter restarted at 0. -/
def processEnumBlock (en : EnumContainer) (blockTxt : PyStr) : Except String EnumContainer :=
  (processEnumBlockLoop (en, 0) (splitOnSub [','] blockTxt)).map Prod.fst

def getEnumsLoop : EnumContainer → List PyStr → Except String EnumContainer
  | en, [] => .ok en
  | en, b :: rest =>
    match processEnumBlock en b with
    | .error e => .error e
    | .ok en2 => getEnumsLoop en2 rest

/-- `EnumContainer.getEnums`: every block, one flat last-write-wins namespace. -/
def EnumContainer.getEnums (contents : PyStr) : Except String EnumContainer :=
  getEnumsLoop ⟨[]⟩ (pyFinditer matchEnumAt contents)

/-! ### Macro evaluator (`MacrosContainer`) -/

structure MacroDef where
  name : PyStr
  params : List PyStr
  body : PyStr
deriving DecidableEq, Repr

/-- The parameter-substitution loop of `Macro.callMacro`: `argsList[i]` raises when
the call supplies fewer arguments than the macro has parameters. -/
def callMacroLoop (enums : EnumContainer) (argsList : List PyStr) : Nat → List PyStr → PyStr → Except String PyStr
  | _, [], body => .ok body
  | i, x :: ps, body =>
    match argsList[i]? with
    | none => .error "IndexError: list index out of range"
    | some arg =>
      let arg := enums.getDefault arg arg
      callMacroLoop enums argsList (i + 1) ps (replaceSub x arg body)

/-- `Macro.callMacro`: substitute (enum-resolved) arguments, then evaluate; an
evaluation failure is caught and yields `None` with a warning. -/
def MacroDef.callMacro (m : MacroDef) (argsList : List PyStr) (enums : EnumContainer) : Except String (Option PyStr) :=
  match callMacroLoop enums argsList 0 m.params m.body with
  | .error e => .error e
  | .ok body =>
    match pyEvalArith body with
    | some v => .ok (some (intToStr v))
    | none => .ok none

/-- `Macro.simpleExpand`. -/
def MacroDef.simpleExpand (m : MacroDef) : Option PyStr :=
  (pyEvalArith m.body).map intToStr

structure MacrosContainer where
  macros : List (PyStr × MacroDef)
deriving DecidableEq, Repr

/-- `MacrosContainer.parseMacro`: when the expression is call-shaped, the name and
argument text come from a two-way unpack of `group().split(")")[0].split("(")`,
which raises `ValueError` when the text before the first `)` holds more than one
`(`; an unknown macro name yields `None` after a printed warning. -/
def MacrosContainer.parseMacro (c : MacrosContainer) (expr : PyStr) (enums : EnumContainer) : Except String (Option PyStr) :=
  match matchFuncCallAt expr with
  | some (m, _) =>
    (match splitOnSub ['('] (takeBeforeChar ')' m) with
     | [macroName, macroArgs] =>
       (match dictGet c.macros macroName with
        | none => .ok none
        | some mac => mac.callMacro ((splitOnSub [','] macroArgs).map stripChars) enums)
     | _ => .error "ValueError: unpack")
  | none =>
    match dictGet c.macros expr with
    | some mac => .ok mac.simpleExpand
    | none => .ok none

/-- Strip a single character from both ends, Python `str.strip(chars)` style. -/
def stripCharSet (cs : List Char) (s : PyStr) : PyStr :=
  ((s.dropWhile (cs.contains ·)).reverse.dropWhile (cs.contains ·)).reverse

/-- `MacrosContainer.getMacrosDefinitions`: collect every `#define` the pattern
captures (object-like, or function-like with a single identifier parameter). -/
def MacrosContainer.getMacrosDefinitions (contents : PyStr) : MacrosContainer :=
  ⟨(pyFinditer matchMacroDefAt contents).foldl (fun d x =>
      let macroName := stripChars x.name
      let macroParams :=
        match x.paramsTxt with
        | none => []
        | some ptxt => (splitOnSub [','] (stripCharSet [')'] (stripCharSet ['('] ptxt))).map stripChars
      dictInsert macroName (MacroDef.mk macroName macroParams (stripChars x.body)) d) []⟩

/-! ### Function body locator -/

def splitlinesKeepAux (acc : PyStr) : PyStr → List PyStr
  | [] => if acc.isEmpty then [] else [acc.reverse]
  | c :: r =>
    if c = '\n' then (acc.reverse ++ ['\n']) :: splitlinesKeepAux [] r
    else splitlinesKeepAux (c :: acc) r

/-- Python `s.splitlines(True)` with `\n` line endings. -/
def splitlinesKeep (s : PyStr) : List PyStr := splitlinesKeepAux [] s

/-- Python `raw_line[:raw_line.index("//")] if "//" in raw_line else raw_line`. -/
def stripLineComment : PyStr → PyStr
  | [] => []
  | c :: rest =>
    if c = '/' ∧ rest.head? = some '/' then [] else c :: stripLineComment rest

/-- The brace-counting loop of `get_code_body`: starts at count 1, accumulates the
comment-stripped lines, and stops (excluding the final line) when the count
reaches zero. -/
def bodyScanLines : Int → List PyStr → PyStr
  | _, [] => []
  | bc, l :: rest =>
    let sl := stripLineComment l
    let bc2 := bc + (countChar lbrace sl : Int) - (countChar rbrace sl : Int)
    if bc2 = 0 then [] else sl ++ bodyScanLines bc2 rest

/-- `get_code_body`: look up the function's recorded signature line number and scan
from the following line; the recorded-line list is indexed by the function's
position in `func_names`, and an out-of-range subscript raises. -/
def get_code_body (content funcname : PyStr) (funcNames : List PyStr) (lineNumbers : List Nat) : Except String PyStr :=
  match pyIndexOf funcname funcNames with
  | none => .error "ValueError: x not in list"
  | some i =>
    match lineNumbers[i]? with
    | none => .error "IndexError: list index out of range"
    | some line_num =>
      if line_num = 0 then .ok []
      else .ok (bodyScanLines 1 ((splitlinesKeep content).drop line_num))

/-- `definition_by_name`: first captured definition with the given name,
trimmed up to its opening brace. -/
def definition_by_name (content name : PyStr) : Option PyStr :=
  (capture_definitions content).findSome? (fun d =>
    if takeBeforeChar '(' d = name then some (stripChars (takeBeforeChar lbrace d)) else none)

/-- `setup_func_definitions`: signature text plus `" {"` per function; a function
whose definition cannot be found is skipped with a warning (shortening the list). -/
def setup_func_definitions (content : PyStr) (funcNames : List PyStr) : List PyStr :=
  funcNames.foldl (fun acc fn =>
    match definition_by_name content fn with
    | none => acc
    | some d => acc ++ [d ++ [' ', lbrace]]) []

/-- Inner loop of `setup_line_numbers` over `func_names` for one source line:
each function's definition entry is fetched by its index (raising when the
definitions list is shorter), its last physical line is the search key, and a
substring hit appends the current line number. -/
def lineHitsLoop (funcNames funcDefs : List PyStr) (line : PyStr) (lineNo : Nat) : List PyStr → Except String (List Nat)
  | [] => .ok []
  | fn :: rest =>
    match pyIndexOf fn funcNames with
    | none => .error "ValueError: x not in list"
    | some i =>
      match funcDefs[i]? with
      | none => .error "IndexError: list index out of range"
      | some d =>
        let key := (splitOnSub ['\n'] d).getLastD []
        match lineHitsLoop funcNames funcDefs line lineNo rest with
        | .error e => .error e
        | .ok hits => .ok (if containsSub key line then lineNo :: hits else hits)

def setupLineNumbersLoop (funcNames funcDefs : List PyStr) : Nat → List PyStr → Except String (List Nat)
  | _, [] => .ok []
  | n, l :: rest =>
    match lineHitsLoop funcNames funcDefs l n funcNames with
    | .error e => .error e
    | .ok hits =>
      match setupLineNumbersLoop funcNames funcDefs (n + 1) rest with
      | .error e => .error e
      | .ok tail => .ok (hits ++ tail)

/-- `setup_line_numbers`: line numbers (1-based) appended in source-line order for
every (line, function) pair whose search key occurs in the line. -/
def setup_line_numbers (content : PyStr) (funcNames funcDefs : List PyStr) : Except String (List Nat) :=
  setupLineNumbersLoop funcNames funcDefs 1 (splitlinesKeep content)

/-! ### Indirect members and dispatch-variable assignments -/

/-- `getIndirectMemberFuncs`: member fields other than `this->actionFunc` assigned
a known function name (a Python set, modelled as an order-of-first-insertion
deduplicated list — no stated property depends on set iteration order). -/
def getIndirectMemberFuncs (code_body : PyStr) (funcNames : List PyStr) : List PyStr :=
  (pyFinditer matchIndirectAt code_body).foldl (fun acc mv =>
    if mv.1 = ("this->actionFunc").data then acc
    else if mv.2 ∈ funcNames ∧ mv.1 ∉ acc then acc ++ [mv.1]
    else acc) []

/-- Macro-then-enum resolution of one dispatch-index expression
(`action_var_values_in_func` lines 293–299); a `parseMacro` exception escapes. -/
def resolveIndexExpr (macros : MacrosContainer) (enums : EnumContainer) (idx : PyStr) : Except String PyStr :=
  match macros.parseMacro idx enums with
  | .error e => .error e
  | .ok (some v) => .ok v
  | .ok none =>
    match enums.get idx with
    | some v => .ok v
    | none => .ok idx

def actionValuesLoop (macros : MacrosContainer) (enums : EnumContainer) : List PyStr → List PyStr → Except String (List PyStr)
  | acc, [] => .ok acc
  | acc, m :: rest =>
    match (splitOnSub (" = ").data m)[1]? with
    | none => .error "IndexError: list index out of range"
    | some p =>
      let idx := stripChars ((splitOnSub [';'] p).headD [])
      match resolveIndexExpr macros enums idx with
      | .error e => .error e
      | .ok v => actionValuesLoop macros enums (if v ∈ acc then acc else acc ++ [v]) rest

/-- `action_var_values_in_func`: deduplicated resolved right-hand sides of every
`<action_var> = ...;` assignment in the body. -/
def action_var_values_in_func (code_body action_var : PyStr) (macros : MacrosContainer) (enums : EnumContainer) : Except String (List PyStr) :=
  if containsSub action_var code_body = false then .ok []
  else actionValuesLoop macros enums [] (pyFinditer (matchAssignAt action_var) code_body)

def indirectFuncsLoop (code_body : PyStr) (macros : MacrosContainer) (enums : EnumContainer) (removeList : List PyStr) : List PyStr → List PyStr → Except String (List PyStr)
  | acc, [] => .ok acc
  | acc, member :: rest =>
    match action_var_values_in_func code_body member macros enums with
    | .error e => .error e
    | .ok vals =>
      indirectFuncsLoop code_body macros enums removeList
        (vals.foldl (fun a n => if n ∉ a ∧ n ∉ removeList then a ++ [n] else a) acc) rest

/-- `getIndirectFunctionsInFunc`: function names assigned to any collected member
field inside this body, minus the removal list, deduplicated. -/
def getIndirectFunctionsInFunc (code_body : PyStr) (indirectMemberFuncs : List PyStr) (macros : MacrosContainer) (enums : EnumContainer) (removeList : List PyStr) : Except String (List PyStr) :=
  indirectFuncsLoop code_body macros enums removeList [] indirectMemberFuncs

/-! ### Graph model -/

inductive EdgeCat where
  | transition
  | call
  | callback
  | indirectMember
deriving DecidableEq, Repr

structure GraphEdge where
  src : Nat
  dst : Nat
  cat : EdgeCat
deriving DecidableEq, Repr

/-- The graph handed to the renderer: node statements (id = the function's index
in `func_names`, stringified in the script; kept as the index here) with their
labels, and edge statements tagged with the category their color encodes
(`actionFunc`/`actionFuncInit` both render the `transition` category). -/
structure DotGraph where
  nodes : List (Nat × PyStr)
  edges : List GraphEdge
deriving DecidableEq, Repr

def DotGraph.addNode (g : DotGraph) (i : Nat) (lbl : PyStr) : DotGraph :=
  ⟨g.nodes ++ [(i, lbl)], g.edges⟩

def DotGraph.addEdge (g : DotGraph) (s d : Nat) (c : EdgeCat) : DotGraph :=
  ⟨g.nodes, g.edges ++ [⟨s, d, c⟩]⟩

/-- `addFunctionTransitionToGraph`: a target absent from `func_names` raises
`ValueError` inside `index_of_func`, which is caught: warn and skip. -/
def addFunctionTransitionToGraph (dot : DotGraph) (funcNames : List PyStr) (index : Nat) (func_name action_transition : PyStr) : DotGraph :=
  match pyIndexOf action_transition funcNames with
  | none => dot
  | some fi =>
    ((dot.addNode index func_name).addNode fi action_transition).addEdge index fi EdgeCat.transition

/-- Loop of `addCallNamesToGraph` over the captured call names, with its `seen`
per-function deduplication set. -/
def addCallNamesLoop (funcNames : List PyStr) (index : Nat) (removeList : List PyStr) (setupAction rawActorFunc : Bool) : List PyStr → List PyStr → DotGraph → DotGraph
  | _, [], dot => dot
  | seen, call :: rest, dot =>
    if call ∉ funcNames then addCallNamesLoop funcNames index removeList setupAction rawActorFunc seen rest dot
    else if call ∈ seen then addCallNamesLoop funcNames index removeList setupAction rawActorFunc seen rest dot
    else if call ∈ removeList then addCallNamesLoop funcNames index removeList setupAction rawActorFunc seen rest dot
    else if setupAction && (containsSub ("_SetupAction").data call || containsSub ("_SetAction").data call) then
      addCallNamesLoop funcNames index removeList setupAction rawActorFunc seen rest dot
    else
      let seen2 := seen ++ [call]
      let dot2 := if rawActorFunc then dot.addNode index (funcNames[index]?.getD []) else dot
      match pyIndexOf call funcNames with
      | none => addCallNamesLoop funcNames index removeList setupAction rawActorFunc seen2 rest dot2
      | some ci =>
        addCallNamesLoop funcNames index removeList setupAction rawActorFunc seen2 rest
          ((dot2.addNode ci call).addEdge index ci EdgeCat.call)

def addCallNamesToGraph (dot : DotGraph) (funcNames : List PyStr) (index : Nat) (code_body : PyStr) (removeList : List PyStr) (setupAction rawActorFunc : Bool) : DotGraph :=
  addCallNamesLoop funcNames index removeList setupAction rawActorFunc [] (capture_call_names code_body) dot

/-- Inner loop of `addCallbacksToGraph` over `[x for x in func_names if x in
argumentList]`: an argument equal to a known function name gets a callback edge
unless it is already a transition target. The source populates a `seen` set here
but never consults it, so duplicate callback edges are emitted as-is. -/
def callbackArgsLoop (index : Nat) (transitionList argumentList funcNames : List PyStr) : List PyStr → DotGraph → DotGraph
  | [], dot => dot
  | fn :: rest, dot =>
    if fn ∈ argumentList ∧ fn ∉ transitionList then
      match pyIndexOf fn funcNames with
      | none => callbackArgsLoop index transitionList argumentList funcNames rest dot
      | some ci =>
        callbackArgsLoop index transitionList argumentList funcNames rest
          ((dot.addNode ci fn).addEdge index ci EdgeCat.callback)
    else callbackArgsLoop index transitionList argumentList funcNames rest dot

/-- Outer loop of `addCallbacksToGraph` over the captured calls-with-arguments:
whitespace is removed, the text is unpacked at the first `(` (raising when there
is none), and the argument text is comma-split. -/
def addCallbacksLoop (funcNames : List PyStr) (index : Nat) (transitionList : List PyStr) : List PyStr → DotGraph → Except String DotGraph
  | [], dot => .ok dot
  | cwa :: rest, dot =>
    let c2 := replaceSub [' '] [] (replaceSub ['\n'] [] cwa)
    match splitOnceChar '(' c2 with
    | none => .error "ValueError: not enough values to unpack"
    | some (_, arguments) =>
      let argumentList := (splitOnSub [','] arguments).map stripChars
      addCallbacksLoop funcNames index transitionList rest
        (callbackArgsLoop index transitionList argumentList funcNames funcNames dot)

def addCallbacksToGraph (dot : DotGraph) (funcNames : List PyStr) (index : Nat) (code_body : PyStr) (transitionList : List PyStr) : Except String DotGraph :=
  addCallbacksLoop funcNames index transitionList (capture_calls code_body) dot

/-- Loop of `addIndirectFunctionsToGraph`, with its `seen` deduplication set. -/
def addIndirectLoop (funcNames : List PyStr) (index : Nat) : List PyStr → List PyStr → DotGraph → DotGraph
  | _, [], dot => dot
  | seen, call :: rest, dot =>
    if call ∉ funcNames then addIndirectLoop funcNames index seen rest dot
    else if call ∈ seen then addIndirectLoop funcNames index seen rest dot
    else
      let seen2 := seen ++ [call]
      let dot2 := dot.addNode index (funcNames[index]?.getD [])
      match pyIndexOf call funcNames with
      | none => addIndirectLoop funcNames index seen2 rest dot2
      | some ci =>
        addIndirectLoop funcNames index seen2 rest ((dot2.addNode ci call).addEdge index ci EdgeCat.indirectMember)

def addIndirectFunctionsToGraph (dot : DotGraph) (funcNames : List PyStr) (index : Nat) (indirectFunctions : List PyStr) : DotGraph :=
  addIndirectLoop funcNames index [] indirectFunctions dot

/-! ### The graph-building phase of `main` -/

/-- The `ArrayIndexed` transition loop of `main` (lines 564–570): each resolved
index expression is parsed with `int(...)` inside a `try` whose `except` warns
and skips; the subsequent subscript `action_functions[indexTemp]` is outside the
`try`, so an out-of-range index raises an uncaught `IndexError`. -/
def arrayTransitionLoop (action_functions : List PyStr) : List PyStr → Except String (List PyStr)
  | [] => .ok []
  | s :: rest =>
    match pyParseInt s with
    | none => arrayTransitionLoop action_functions rest
    | some i =>
      match pyListGet action_functions i with
      | none => .error "IndexError: list index out of range"
      | some f =>
        match arrayTransitionLoop action_functions rest with
        | .error e => .error e
        | .ok l => .ok (f :: l)

/-- `main` lines 465–469: the user's removal list (possibly absent) always gets
`"NULL"` appended. -/
def buildRemoveList (argsRemove : Option (List PyStr)) : List PyStr :=
  (match argsRemove with
   | none => []
   | some l => l) ++ [("NULL").data]

def isLifecycleInit (fn : PyStr) : Bool := endsWithChars ("_Init").data fn

def isLifecycleOther (fn : PyStr) : Bool :=
  endsWithChars ("_Destroy").data fn || endsWithChars ("_Update").data fn ||
    endsWithChars ("_Draw").data fn

/-- `main` lines 489–496: unconditional node registration for the lifecycle
functions, tracking the actor prefix taken from the last `_Init` name. -/
def registerLifecycleLoop : Nat → List PyStr → DotGraph → PyStr → DotGraph × PyStr
  | _, [], dot, pref => (dot, pref)
  | i, fn :: rest, dot, pref =>
    if isLifecycleInit fn then
      registerLifecycleLoop (i + 1) rest (dot.addNode i fn) ((splitOnSub ['_'] fn).headD [])
    else if isLifecycleOther fn then
      registerLifecycleLoop (i + 1) rest (dot.addNode i fn) pref
    else registerLifecycleLoop (i + 1) rest dot pref

/-- `main` lines 530–540: cache every function body and collect the indirect
member fields over the union of all bodies. -/
def computeBodiesLoop (content : PyStr) (funcNames : List PyStr) (lineNumbers : List Nat) : List (PyStr × PyStr) × List PyStr → List PyStr → Except String (List (PyStr × PyStr) × List PyStr)
  | acc, [] => .ok acc
  | acc, fn :: rest =>
    match get_code_body content fn funcNames lineNumbers with
    | .error e => .error e
    | .ok body =>
      computeBodiesLoop content funcNames lineNumbers
        (dictInsert fn body acc.1,
         (getIndirectMemberFuncs body funcNames).foldl (fun a m => if m ∈ a then a else a ++ [m]) acc.2)
        rest

/-- The per-run inputs of the edge-building loop of `main`. -/
structure BuildCtx where
  funcNames : List PyStr
  removeList : List PyStr
  loners : Bool
  setupAction : Bool
  setAction : Bool
  arrayActorFunc : Bool
  rawActorFunc : Bool
  action_functions : List PyStr
  action_var : PyStr
  macros : MacrosContainer
  enums : EnumContainer
  indirectMembers : List PyStr
  bodies : List (PyStr × PyStr)

/-- The idiom dispatch of `main` lines 551–575 producing one function's raw
transition list. -/
def computeTransitionList (ctx : BuildCtx) (code_body : PyStr) : Except String (List PyStr) :=
  if ctx.setupAction then capture_setupaction_call_arg code_body
  else if ctx.setAction then capture_setaction_call_arg code_body
  else if ctx.arrayActorFunc then
    match action_var_values_in_func code_body ctx.action_var ctx.macros ctx.enums with
    | .error e => .error e
    | .ok idxs => arrayTransitionLoop ctx.action_functions idxs
  else if ctx.rawActorFunc then
    action_var_values_in_func code_body ("this->actionFunc").data ctx.macros ctx.enums
  else .ok []

def transitionEdgesLoop (funcNames : List PyStr) (index : Nat) (func_name : PyStr) : List PyStr → DotGraph → DotGraph
  | [], dot => dot
  | t :: rest, dot =>
    transitionEdgesLoop funcNames index func_name rest
      (addFunctionTransitionToGraph dot funcNames index func_name t)

/-- One iteration of the edge-building loop of `main` (lines 549–589) for a
function that survived the removal check: transitions (filtered by the removal
list), call edges, callback edges, indirect-member edges. -/
def processFunction (ctx : BuildCtx) (code_body : PyStr) (dot : DotGraph) (index : Nat) (func_name : PyStr) : Except String DotGraph :=
  match computeTransitionList ctx code_body with
  | .error e => .error e
  | .ok tl0 =>
    let transitionList := tl0.filter (fun x => decide (x ∉ ctx.removeList))
    let dot1 := transitionEdgesLoop ctx.funcNames index func_name transitionList dot
    let dot2 := addCallNamesToGraph dot1 ctx.funcNames index code_body ctx.removeList ctx.setupAction ctx.rawActorFunc
    match addCallbacksToGraph dot2 ctx.funcNames index code_body transitionList with
    | .error e => .error e
    | .ok dot3 =>
      match getIndirectFunctionsInFunc code_body ctx.indirectMembers ctx.macros ctx.enums ctx.removeList with
      | .error e => .error e
      | .ok indirectFunctions => .ok (addIndirectFunctionsToGraph dot3 ctx.funcNames index indirectFunctions)

/-- The edge-building loop of `main` (lines 542–589): a function on the removal
list is skipped entirely; with `--loners` every surviving function's node is
registered up front; the cached body is fetched from the dict. -/
def buildGraphLoop (ctx : BuildCtx) : DotGraph → Nat → List PyStr → Except String DotGraph
  | dot, _, [] => .ok dot
  | dot, i, fn :: rest =>
    if fn ∈ ctx.removeList then buildGraphLoop ctx dot (i + 1) rest
    else
      let dot1 := if ctx.loners then dot.addNode i fn else dot
      match dictGet ctx.bodies fn with
      | none => .error "KeyError"
      | some body =>
        match processFunction ctx body dot1 i fn with
        | .error e => .error e
        | .ok dot2 => buildGraphLoop ctx dot2 (i + 1) rest

/-- The `ArrayIndexed` detection metadata of `main` lines 499 and 513–528: whether
the `<prefix>ActionFunc ...[] = {...}` declaration and its `name[idx](` call site
were both found by `re.search`, and if so the array's comma-split member names
and the dispatch-variable text. Those two searches are the one part of the
analysis not re-implemented here; their outcome is passed in as an input (the
fatal `os._exit(1)` paths for a half-recognized array idiom are subsumed by the
caller simply not being invoked). -/
structure ArrayPatternInput where
  arrayActorFunc : Bool
  action_functions : List PyStr
  action_var : PyStr
deriving DecidableEq, Repr

/-- The analysis-and-graph-building phase of `main` (lines 465–589), from raw
source text to the node/edge model handed to the renderer; CLI parsing, config
colors and rendering are outside it. An uncaught Python exception anywhere in
the phase is an `Except.error`. -/
def buildGraph (contents : PyStr) (loners : Bool) (argsRemove : Option (List PyStr)) (arr : ArrayPatternInput) : Except String DotGraph :=
  let removeList := buildRemoveList argsRemove
  let funcNames := capture_definition_names contents
  let funcDefs := setup_func_definitions contents funcNames
  match setup_line_numbers contents funcNames funcDefs with
  | .error e => .error e
  | .ok lineNumbers =>
    let macros := MacrosContainer.getMacrosDefinitions contents
    match EnumContainer.getEnums contents with
    | .error e => .error e
    | .ok enums =>
      let regOut := registerLifecycleLoop 0 funcNames ⟨[], []⟩ []
      let funcPref := regOut.2
      let setupAction : Bool := decide ((funcPref ++ ("_SetupAction").data) ∈ funcNames)
      let setAction : Bool := decide ((funcPref ++ ("_SetAction").data) ∈ funcNames)
      let rawActorFunc : Bool := containsSub ("this->actionFunc").data contents
      if !setupAction && !setAction && !arr.arrayActorFunc && !rawActorFunc then
        .error "No actor action-based structure found"
      else
        match computeBodiesLoop contents funcNames lineNumbers ([], []) funcNames with
        | .error e => .error e
        | .ok bi =>
          buildGraphLoop
            ⟨funcNames, removeList, loners, setupAction, setAction, arr.arrayActorFunc,
             rawActorFunc, arr.action_functions, arr.action_var, macros, enums, bi.2, bi.1⟩
            regOut.1 0 funcNames

instance {ε α : Type} [DecidableEq ε] [DecidableEq α] : DecidableEq (Except ε α) := fun a b =>
  match a, b with
  | .error e, .error f =>
    if h : e = f then .isTrue (by rw [h]) else .isFalse (by intro hc; cases hc; exact h rfl)
  | .ok x, .ok y =>
    if h : x = y then .isTrue (by rw [h]) else .isFalse (by intro hc; cases hc; exact h rfl)
  | .error _, .ok _ => .isFalse (by intro hc; cases hc)
  | .ok _, .error _ => .isFalse (by intro hc; cases hc)

/-! ### Predicates and concrete inputs used by the statements -/

/-- A name with one of the four lifecycle suffixes of `main` lines 492–495. -/
def isLifecycleName (fn : PyStr) : Bool := isLifecycleInit fn || isLifecycleOther fn

/-- The edge neither starts at an index labelled `r` nor — unless it is a
callback edge — ends at one. -/
def edgeAvoids (funcNames : List PyStr) (r : PyStr) (e : GraphEdge) : Prop :=
  funcNames[e.src]? ≠ some r ∧ (e.cat ≠ EdgeCat.callback → funcNames[e.dst]? ≠ some r)

def graphAvoids (funcNames : List PyStr) (r : PyStr) (g : DotGraph) : Prop :=
  ∀ e ∈ g.edges, edgeAvoids funcNames r e

/-- Pattern input for actors that are not `ArrayIndexed`. -/
def arrNone : ArrayPatternInput := ⟨false, [], []⟩

/-- A small raw-function-pointer actor: `Foo_Init` transitions to `Foo_Wait`,
`Foo_Wait` calls `Foo_Draw` (passing `Foo_Wait` as a trailing argument) and
parks the action pointer on `NULL`. -/
def contentEx : PyStr :=
  ("void Foo_Init(Actor* t) \x7b\n    this->actionFunc = Foo_Wait;\n\x7d\nvoid Foo_Wait(Actor* t) \x7b\n    Foo_Draw(t, Foo_Wait);\n    this->actionFunc = NULL;\n\x7d\nvoid Foo_Draw(Actor* t) \x7b\n\x7d\n").data

/-- The graph the script builds for `contentEx` with no options. -/
def contentExGraph : DotGraph :=
  ⟨[(0, ("Foo_Init").data), (2, ("Foo_Draw").data), (0, ("Foo_Init").data),
    (1, ("Foo_Wait").data), (1, ("Foo_Wait").data), (2, ("Foo_Draw").data)],
   [⟨0, 1, EdgeCat.transition⟩, ⟨1, 2, EdgeCat.call⟩]⟩

/-- The graph for `contentEx` with `--loners`. -/
def contentExLonersGraph : DotGraph :=
  ⟨[(0, ("Foo_Init").data), (2, ("Foo_Draw").data), (0, ("Foo_Init").data),
    (0, ("Foo_Init").data), (1, ("Foo_Wait").data), (1, ("Foo_Wait").data),
    (1, ("Foo_Wait").data), (2, ("Foo_Draw").data), (2, ("Foo_Draw").data)],
   [⟨0, 1, EdgeCat.transition⟩, ⟨1, 2, EdgeCat.call⟩]⟩

/-- The graph for `contentEx` with `--loners` and removal list `["Foo_Wait"]`. -/
def contentExLonersRemovedGraph : DotGraph :=
  ⟨[(0, ("Foo_Init").data), (2, ("Foo_Draw").data), (0, ("Foo_Init").data),
    (2, ("Foo_Draw").data)], []⟩

/-- A one-function actor whose only function is the lifecycle function `Foo_Init`. -/
def c2content : PyStr :=
  ("void Foo_Init(Aa* t) \x7b\n    this->actionFunc = NULL;\n\x7d\n").data

/-- The graph for `c2content` under removal list `["Foo_Init"]`. -/
def c2graph : DotGraph := ⟨[(0, ("Foo_Init").data)], []⟩

/-- An actor whose `Foo_Init` passes `Foo_Draw` as a callback argument in two
different calls. -/
def c3content : PyStr :=
  ("void Foo_Init(Actor* t) \x7b\n    Foo_Send(Foo_Draw, 0);\n    Foo_Send(Foo_Draw, 1);\n    this->actionFunc = NULL;\n\x7d\nvoid Foo_Send(Actor* t) \x7b\n\x7d\nvoid Foo_Draw(Actor* t) \x7b\n\x7d\n").data

/-- An actor in which function `A`'s parameter text contains a stray `{`, so the
signature-line key reconstructed by `setup_func_definitions` (`"A(x {"`) occurs
on no source line and `setup_line_numbers` records nothing for `A`. -/
def c7content : PyStr :=
  ("void A(x\x7b) \x7b\n    this->actionFunc = B;\n\x7d\nvoid B(y) \x7b\n\x7d\n").data

/-- An actor whose function `F` contains a `//` comment holding an unmatched `{`. -/
def c8content : PyStr :=
  ("void F(a) \x7b\n    if (x) \x7b\n    \x7d  // closing if \x7b\n\x7d\nvoid G(b) \x7b\n\x7d\n").data

/-! ## Theorems -/

theorem pyIndexOf_getElem {x : PyStr} : ∀ {l : List PyStr} {i : Nat}, pyIndexOf x l = some i → l[i]? = some x := by
  intro l
  induction l with
  | nil => intro i h; simp [pyIndexOf] at h
  | cons y rest ih =>
    intro i h
    rw [pyIndexOf] at h
    by_cases hy : y = x
    · rw [if_pos hy] at h
      cases h
      simp [hy]
    · rw [if_neg hy] at h
      cases ho : pyIndexOf x rest with
      | none => rw [ho] at h; simp at h
      | some j =>
        rw [ho] at h
        simp at h
        subst h
        simpa using ih ho

theorem addNode_nodes (g : DotGraph) (i : Nat) (l : PyStr) : (g.addNode i l).nodes = g.nodes ++ [(i, l)] := rfl

theorem addNode_edges (g : DotGraph) (i : Nat) (l : PyStr) : (g.addNode i l).edges = g.edges := rfl

theorem addEdge_nodes (g : DotGraph) (s d : Nat) (c : EdgeCat) : (g.addEdge s d c).nodes = g.nodes := rfl

theorem addEdge_edges (g : DotGraph) (s d : Nat) (c : EdgeCat) : (g.addEdge s d c).edges = g.edges ++ [⟨s, d, c⟩] := rfl

theorem graphAvoids_addNode {n : List PyStr} {r : PyStr} {g : DotGraph} {i : Nat} {l : PyStr}
    (h : graphAvoids n r g) : graphAvoids n r (g.addNode i l) := by
  intro e he
  exact h e (by rwa [addNode_edges] at he)

theorem graphAvoids_addEdge {n : List PyStr} {r : PyStr} {g : DotGraph} {s d : Nat} {c : EdgeCat}
    (h : graphAvoids n r g) (he : edgeAvoids n r ⟨s, d, c⟩) : graphAvoids n r (g.addEdge s d c) := by
  intro e hmem
  rw [addEdge_edges] at hmem
  rcases List.mem_append.mp hmem with h1 | h2
  · exact h e h1
  · rw [List.mem_singleton] at h2
    subst h2
    exact he

/-- C1, counterexample: in the `ArrayIndexed` transition loop, a dispatch-index
expression that parses as an integer but is out of range for the captured
action-function list is not skipped — the subscript raises an uncaught
`IndexError`, contradicting "the occurrence is skipped with a logged warning and
the run continues". -/
theorem c1_out_of_range_raises :
    arrayTransitionLoop [("A").data] [("5").data] = .error "IndexError: list index out of range" := by
  decide

/-- C1, amended: a resolved dispatch-index expression that is not
base-10-integer-parsable is skipped and the loop continues; one that parses to
an in-range index (Python semantics, negative indices wrapping once) contributes
that action function; one that parses to an out-of-range index makes the whole
loop raise `IndexError` instead of skipping. -/
theorem c1_array_index_amended :
    ∀ (afs rest : List PyStr) (s : PyStr),
      (pyParseInt s = none → arrayTransitionLoop afs (s :: rest) = arrayTransitionLoop afs rest) ∧
      (∀ i : Int, pyParseInt s = some i → pyListGet afs i = none →
        arrayTransitionLoop afs (s :: rest) = .error "IndexError: list index out of range") ∧
      (∀ (i : Int) (f : PyStr), pyParseInt s = some i → pyListGet afs i = some f →
        arrayTransitionLoop afs (s :: rest) = (arrayTransitionLoop afs rest).map (fun l => f :: l)) := by
  intro afs rest s
  refine ⟨fun h => ?_, fun i h1 h2 => ?_, fun i f h1 h2 => ?_⟩
  · rw [arrayTransitionLoop, h]
  · rw [arrayTransitionLoop]
    simp only [h1, h2]
  · rw [arrayTransitionLoop]
    simp only [h1, h2]
    cases hr : arrayTransitionLoop afs rest <;> simp [Except.map]

/-- C1, witness: the amended theorem at concrete inputs — `"x"` is skipped,
`"0"` contributes the single element of the action-function list. -/
theorem c1_array_index_amended_witness :
    arrayTransitionLoop [("A").data] [("x").data] = arrayTransitionLoop [("A").data] [] ∧
      arrayTransitionLoop [("A").data] [("0").data] =
        (arrayTransitionLoop [("A").data] []).map (fun l => ("A").data :: l) :=
  ⟨(c1_array_index_amended [("A").data] [] (("x").data)).1 (by decide),
   (c1_array_index_amended [("A").data] [] (("0").data)).2.2 0 (("A").data) (by decide) (by decide)⟩

/-- C4, counterexample: the macro-definition pattern's parameter group admits a
single identifier and no comma, so `#define ADD(x,y) x+y` is not captured at
all; expanding the call `ADD(1, 2)` against the resulting container finds no
macro named `ADD` and yields no value rather than `"3"`. -/
theorem c4_add_macro_not_captured :
    dictGet (MacrosContainer.getMacrosDefinitions (("#define ADD(x,y) x+y\n").data)).macros (("ADD").data) = none ∧
      (MacrosContainer.getMacrosDefinitions (("#define ADD(x,y) x+y\n").data)).parseMacro (("ADD(1, 2)").data) ⟨[]⟩ = .ok none := by
  constructor
  · decide
  · decide

/-- C4, amended: a two-parameter `#define` such as `ADD(x,y)` is never captured
(the call therefore expands to no value), while the expansion pipeline does work
for the single-parameter form: for `#define INC(x) x+1`, expanding `INC(2)`
substitutes the argument and evaluates to `"3"`. -/
theorem c4_macro_expansion_amended :
    (MacrosContainer.getMacrosDefinitions (("#define ADD(x,y) x+y\n").data)).parseMacro (("ADD(1, 2)").data) ⟨[]⟩ = .ok none ∧
      (MacrosContainer.getMacrosDefinitions (("#define INC(x) x+1\n").data)).parseMacro (("INC(2)").data) ⟨[]⟩ = .ok (some (("3").data)) := by
  constructor
  · decide
  · decide

/-- C3: the callback-edge emitter populates its `seen` set but never consults
it, so a body whose two calls both pass the known function `Foo_Draw` as an
argument produces two identical `(0, 2, callback)` edges — the deduplication
invariant fails for the callback category. -/
theorem c3_duplicate_callback_edges :
    (buildGraph c3content false none arrNone).map
        (fun g => (g.edges.filter (fun e => decide (e = ⟨0, 2, EdgeCat.callback⟩))).length) = .ok 2 ∧
      (capture_definition_names c3content)[2]? = some (("Foo_Draw").data) := by
  constructor
  · decide
  · decide

/-- C7: actor `c7content` has two captured functions `A` and `B`, but `A`'s
reconstructed signature key occurs on no line, so `setup_line_numbers` records
only one line number (`B`'s, in `A`'s position): the body lookup for `A` scans
the wrong span instead of returning empty text, and the lookup for `B` raises
an uncaught `IndexError`, aborting the run. -/
theorem c7_missing_signature_misaligns :
    (capture_definition_names c7content).length = 2 ∧
      setup_line_numbers c7content (capture_definition_names c7content)
        (setup_func_definitions c7content (capture_definition_names c7content)) = .ok [4] ∧
      buildGraph c7content false none arrNone = .error "IndexError: list index out of range" := by
  refine ⟨by decide, by decide, by decide⟩

/-- C6, counterexample: `"FOO((a)"` is call-shaped (anchored match of
`func_call_regexpr` succeeds) and names no known macro, yet the expansion raises
instead of returning no value: the text before the first `)` holds two `(`, so
the two-way unpack of `group().split(")")[0].split("(")` raises `ValueError`
before the unknown-macro check is reached. -/
theorem c6_unpack_raises :
    matchFuncCallAt (("FOO((a)").data) = some ((("FOO((a)").data), []) ∧
      (MacrosContainer.mk []).parseMacro (("FOO((a)").data) ⟨[]⟩ = .error "ValueError: unpack" := by
  constructor
  · decide
  · decide

/-- C6, amended: for a call-shaped expression whose matched text contains exactly
one `(` before the first `)` (so the unpack yields a name and an argument text),
an unknown macro name makes `parseMacro` return no value after the logged
warning, with no exception; when the text before the first `)` holds more than
one `(`, the unpack itself raises `ValueError` past the boundary. -/
theorem c6_unknown_macro_amended :
    ∀ (c : MacrosContainer) (enums : EnumContainer) (expr m rest macroName macroArgs : PyStr),
      matchFuncCallAt expr = some (m, rest) →
      splitOnSub ['('] (takeBeforeChar ')' m) = [macroName, macroArgs] →
      dictGet c.macros macroName = none →
      c.parseMacro expr enums = .ok none := by
  intro c enums expr m rest macroName macroArgs h1 h2 h3
  rw [MacrosContainer.parseMacro]
  simp only [h1, h2, h3]

/-- C6, witness: the amended theorem applied to the unknown macro call `FOO(1)`
against an empty container. -/
theorem c6_unknown_macro_amended_witness :
    (MacrosContainer.mk []).parseMacro (("FOO(1)").data) ⟨[]⟩ = .ok none :=
  c6_unknown_macro_amended ⟨[]⟩ ⟨[]⟩ (("FOO(1)").data) (("FOO(1)").data) []
    (("FOO").data) (("1").data) (by decide) (by decide) (by decide)

theorem stripLineComment_append_comment (c : PyStr) : ∀ (l : PyStr),
    stripLineComment (l ++ '/' :: '/' :: c) = stripLineComment (l ++ ['/', '/']) := by
  intro l
  induction l with
  | nil => simp [stripLineComment]
  | cons a t ih =>
    rw [List.cons_append, List.cons_append, stripLineComment, stripLineComment]
    have hh : (t ++ '/' :: '/' :: c).head? = (t ++ ['/', '/']).head? := by
      cases t <;> simp
    rw [hh]
    by_cases hcond : a = '/' ∧ (t ++ ['/', '/']).head? = some '/'
    · rw [if_pos hcond, if_pos hcond]
    · rw [if_neg hcond, if_neg hcond, ih]

theorem bodyScanLines_comment_insensitive (bc : Int) (pre post : List PyStr) (l c c2 : PyStr) :
    bodyScanLines bc (pre ++ (l ++ '/' :: '/' :: c) :: post) =
      bodyScanLines bc (pre ++ (l ++ '/' :: '/' :: c2) :: post) := by
  induction pre generalizing bc with
  | nil =>
    simp only [List.nil_append]
    rw [bodyScanLines, bodyScanLines, stripLineComment_append_comment c l,
      stripLineComment_append_comment c2 l]
  | cons p rest ih =>
    rw [List.cons_append, List.cons_append, bodyScanLines, bodyScanLines, ih]

/-- C8: the body scanner counts braces only on each line's prefix before `//` —
replacing the text after a line's `//` by anything (in particular by comment
text holding an unmatched brace) never changes the located body; concretely, in
`c8content` the function `F` containing the line `    }  // closing if {` is
located as the correct brace-balanced span, ending at the `}` on the next line
(the returned text is comment-stripped, as the code accumulates the stripped
lines). -/
theorem c8_comment_brace_correct :
    (∀ (bc : Int) (pre post : List PyStr) (l c c2 : PyStr),
        bodyScanLines bc (pre ++ (l ++ '/' :: '/' :: c) :: post) =
          bodyScanLines bc (pre ++ (l ++ '/' :: '/' :: c2) :: post)) ∧
      setup_line_numbers c8content (capture_definition_names c8content)
          (setup_func_definitions c8content (capture_definition_names c8content)) = .ok [1, 5] ∧
      get_code_body c8content (("F").data) (capture_definition_names c8content) [1, 5] =
        .ok (("    if (x) \x7b\n    \x7d  ").data) :=
  ⟨fun bc pre post l c c2 => bodyScanLines_comment_insensitive bc pre post l c c2,
   by decide, by decide⟩

theorem stripChars_no_space {l : PyStr} (h : ∀ ch ∈ l, isPySpace ch = false) : stripChars l = l := by
  have hdw : ∀ (m : PyStr), (∀ ch ∈ m, isPySpace ch = false) → m.dropWhile isPySpace = m := by
    intro m hm
    cases m with
    | nil => rfl
    | cons a t => simp [List.dropWhile_cons, hm a (List.mem_cons_self a t)]
  rw [stripChars, hdw l h, hdw l.reverse (fun ch hch => h ch (List.mem_reverse.mp hch)),
    List.reverse_reverse]

theorem natToStrAux_zero (fuel : Nat) : natToStrAux fuel 0 = [] := by cases fuel <;> rfl

theorem natToStrAux_spec : ∀ (fuel n : Nat), n ≤ fuel → 1 ≤ n →
    ∃ d ds, natToStrAux fuel n = d :: ds ∧
      ('1' ≤ d && d ≤ '9') = true ∧
      ds.all (fun c => '0' ≤ c && c ≤ '9') = true ∧
      d ≠ '-' ∧ d ≠ '+' ∧ d ≠ '0' ∧
      (∀ ch ∈ d :: ds, isPySpace ch = false) ∧
      digitsToNat 10 digitVal (d :: ds) = n := by
  intro fuel
  induction fuel with
  | zero => intro n h1 h2; omega
  | succ fuel ih =>
    intro n h1 h2
    obtain ⟨m, rfl⟩ : ∃ m, n = m + 1 := ⟨n - 1, by omega⟩
    by_cases hsmall : m + 1 < 10
    · have hq : (m + 1) / 10 = 0 := by omega
      have hr : (m + 1) % 10 = m + 1 := by omega
      have hm8 : m ≤ 8 := by omega
      simp only [natToStrAux, hq, natToStrAux_zero, List.nil_append, hr]
      interval_cases m <;>
        exact ⟨_, [], rfl, by decide, by decide, by decide, by decide, by decide, by decide⟩
    · have hlt : (m + 1) / 10 < m + 1 := Nat.div_lt_self (by omega) (by omega)
      have hqf : (m + 1) / 10 ≤ fuel := by omega
      have hq1 : 1 ≤ (m + 1) / 10 := (Nat.one_le_div_iff (by omega)).mpr (by omega)
      obtain ⟨d, ds, heq, hd, hall, hneg, hpos, h0, hsp, hval⟩ := ih ((m + 1) / 10) hqf hq1
      have hrb : (m + 1) % 10 ≤ 9 := by omega
      have hcprops : ('0' ≤ Char.ofNat (48 + (m + 1) % 10) ∧ Char.ofNat (48 + (m + 1) % 10) ≤ '9') ∧
          isPySpace (Char.ofNat (48 + (m + 1) % 10)) = false ∧
          digitVal (Char.ofNat (48 + (m + 1) % 10)) = (m + 1) % 10 := by
        set r := (m + 1) % 10 with hrdef
        clear_value r
        interval_cases r <;> exact ⟨by decide, by decide, by decide⟩
      refine ⟨d, ds ++ [Char.ofNat (48 + (m + 1) % 10)], ?_, hd, ?_, hneg, hpos, h0, ?_, ?_⟩
      · simp [natToStrAux, heq]
      · rw [List.all_append, hall]
        simp only [Bool.true_and, List.all_cons, List.all_nil, Bool.and_true]
        rw [Bool.and_eq_true]
        exact ⟨decide_eq_true hcprops.1.1, decide_eq_true hcprops.1.2⟩
      · intro ch hch
        rcases List.mem_cons.mp hch with h | h
        · subst h; exact hsp _ (List.mem_cons_self _ _)
        · rcases List.mem_append.mp h with h2 | h2
          · exact hsp ch (List.mem_cons_of_mem _ h2)
          · rw [List.mem_singleton] at h2; subst h2; exact hcprops.2.1
      · show digitsToNat 10 digitVal ((d :: ds) ++ [_]) = m + 1
        rw [digitsToNat, List.foldl_append, List.foldl_cons, List.foldl_nil]
        have hfold : List.foldl (fun acc c => acc * 10 + digitVal c) 0 (d :: ds) = (m + 1) / 10 := hval
        rw [hfold, hcprops.2.2]
        omega

theorem pyParseIntBase0Core_digits {d : Char} {ds : PyStr} (sign : Int)
    (hd : ('1' ≤ d && d ≤ '9') = true)
    (hall : ds.all (fun c => '0' ≤ c && c ≤ '9') = true)
    (h0 : d ≠ '0') :
    pyParseIntBase0Core sign (d :: ds) = some (sign * ((digitsToNat 10 digitVal (d :: ds) : Nat) : Int)) := by
  have hcond : (('1' ≤ d && d ≤ '9') && ds.all (fun c => '0' ≤ c && c ≤ '9')) = true := by
    rw [hd, hall]; rfl
  simp only [pyParseIntBase0Core]
  rw [if_neg h0, if_pos hcond]

theorem pyParseIntBase0_digits {d : Char} {ds : PyStr}
    (hsp : ∀ ch ∈ d :: ds, isPySpace ch = false)
    (hd : ('1' ≤ d && d ≤ '9') = true)
    (hall : ds.all (fun c => '0' ≤ c && c ≤ '9') = true)
    (hmn : d ≠ '-') (hpl : d ≠ '+') (h0 : d ≠ '0') :
    pyParseIntBase0 (d :: ds) = some ((digitsToNat 10 digitVal (d :: ds) : Nat) : Int) ∧
      pyParseIntBase0 ('-' :: d :: ds) = some (-((digitsToNat 10 digitVal (d :: ds) : Nat) : Int)) := by
  have hstrip : stripChars (d :: ds) = d :: ds := stripChars_no_space hsp
  have hstripm : stripChars ('-' :: d :: ds) = '-' :: d :: ds := by
    apply stripChars_no_space
    intro ch hch
    rcases List.mem_cons.mp hch with h | h
    · subst h; decide
    · exact hsp ch h
  constructor
  · rw [pyParseIntBase0]
    simp only [hstrip, List.head?_cons]
    rw [if_neg (fun hcc => hmn (by simpa using hcc))]
    rw [if_neg (fun hcc => hcc.elim (fun h => hmn (by simpa using h)) (fun h => hpl (by simpa using h)))]
    rw [pyParseIntBase0Core_digits 1 hd hall h0, one_mul]
  · rw [pyParseIntBase0]
    simp only [hstripm, List.head?_cons, true_or, if_true, List.tail_cons]
    rw [pyParseIntBase0Core_digits (-1) hd hall h0, neg_one_mul]

theorem pyParseIntBase0_intToStr (i : Int) : pyParseIntBase0 (intToStr i) = some i := by
  rcases i with n | n
  · have hnn : ¬ Int.ofNat n < 0 := by
      rw [Int.ofNat_eq_natCast]
      omega
    rw [intToStr, if_neg hnn]
    have hton : (Int.ofNat n).toNat = n := rfl
    rw [hton]
    cases n with
    | zero => decide
    | succ m =>
      rw [natToStr, if_neg (by omega)]
      obtain ⟨d, ds, heq, hd, hall, hneg2, hpos2, h02, hsp, hval⟩ :=
        natToStrAux_spec (m + 2) (m + 1) (by omega) (by omega)
      rw [heq, (pyParseIntBase0_digits hsp hd hall hneg2 hpos2 h02).1, hval]
      rfl
  · rw [intToStr, if_pos (Int.negSucc_lt_zero n)]
    have habs : (Int.negSucc n).natAbs = n + 1 := rfl
    rw [habs, natToStr, if_neg (by omega)]
    obtain ⟨d, ds, heq, hd, hall, hneg2, hpos2, h02, hsp, hval⟩ :=
      natToStrAux_spec (n + 2) (n + 1) (by omega) (by omega)
    rw [heq, (pyParseIntBase0_digits hsp hd hall hneg2 hpos2 h02).2, hval]
    rw [Int.negSucc_eq]
    simp

theorem processEnumFragment_unspec (en : EnumContainer) (v : Int) (frag : PyStr)
    (hne : cleanEnumFragment frag ≠ [])
    (hlen : ¬ (splitOnSub ['='] (cleanEnumFragment frag)).length > 1) :
    processEnumFragment (en, v) frag =
      .ok (⟨dictInsert (cleanEnumFragment frag) ⟨cleanEnumFragment frag, v⟩ en.enums⟩, v + 1) := by
  simp only [processEnumFragment]
  rw [if_neg (by simpa [List.isEmpty_iff] using hne), if_neg hlen]

theorem processEnumFragment_explicit (en : EnumContainer) (w : Int) (frag e0 e1 : PyStr)
    (restE : List PyStr) (v : Int)
    (hsplit : splitOnSub ['='] (cleanEnumFragment frag) = e0 :: e1 :: restE)
    (hne : cleanEnumFragment frag ≠ [])
    (hv : pyParseIntBase0 (en.getDefault (stripChars e1) (stripChars e1)) = some v) :
    processEnumFragment (en, w) frag =
      .ok (⟨dictInsert (stripChars e0) ⟨stripChars e0, v⟩ en.enums⟩, v + 1) := by
  simp only [processEnumFragment]
  rw [if_neg (by simpa [List.isEmpty_iff] using hne), if_pos (by rw [hsplit]; simp)]
  rw [hsplit]
  simp only [List.headD_cons, List.getElem?_cons_succ, List.getElem?_cons_zero, Option.getD_some, hv]

theorem processEnumFragment_alias (en : EnumContainer) (w : Int) (frag e0 e1 : PyStr)
    (restE : List PyStr) (dv : EnumDef)
    (hsplit : splitOnSub ['='] (cleanEnumFragment frag) = e0 :: e1 :: restE)
    (hne : cleanEnumFragment frag ≠ [])
    (hdg : dictGet en.enums (stripChars e1) = some dv) :
    processEnumFragment (en, w) frag =
      .ok (⟨dictInsert (stripChars e0) ⟨stripChars e0, dv.value⟩ en.enums⟩, dv.value + 1) := by
  apply processEnumFragment_explicit en w frag e0 e1 restE dv.value hsplit hne
  have hgd : en.getDefault (stripChars e1) (stripChars e1) = intToStr dv.value := by
    rw [EnumContainer.getDefault]
    simp only [hdg]
  rw [hgd]
  exact pyParseIntBase0_intToStr dv.value

theorem processEnumFragment_badliteral (en : EnumContainer) (w : Int) (frag e0 e1 : PyStr)
    (restE : List PyStr)
    (hsplit : splitOnSub ['='] (cleanEnumFragment frag) = e0 :: e1 :: restE)
    (hne : cleanEnumFragment frag ≠ [])
    (hv : pyParseIntBase0 (en.getDefault (stripChars e1) (stripChars e1)) = none) :
    processEnumFragment (en, w) frag = .error "ValueError: invalid literal for int" := by
  simp only [processEnumFragment]
  rw [if_neg (by simpa [List.isEmpty_iff] using hne), if_pos (by rw [hsplit]; simp)]
  rw [hsplit]
  simp only [List.headD_cons, List.getElem?_cons_succ, List.getElem?_cons_zero, Option.getD_some, hv]

theorem processEnumBlock_first_unspec (en : EnumContainer) (blockTxt f : PyStr)
    (rest : List PyStr)
    (hsplit : splitOnSub [','] blockTxt = f :: rest)
    (hne : cleanEnumFragment f ≠ [])
    (hlen : ¬ (splitOnSub ['='] (cleanEnumFragment f)).length > 1) :
    processEnumBlock en blockTxt =
      (processEnumBlockLoop (⟨dictInsert (cleanEnumFragment f) ⟨cleanEnumFragment f, 0⟩ en.enums⟩, 1) rest).map Prod.fst := by
  rw [processEnumBlock, hsplit, processEnumBlockLoop]
  simp only [processEnumFragment_unspec en 0 f hne hlen]
  norm_num

/-- C5, amended: enum resolution. Concretely, `enum { A, B = A, C }` resolves
to A=0, B=0, C=1. Over one block's comma-separated fragments: a cleaned
nonempty fragment with no `=` is assigned the running counter and the counter
becomes that value plus one; a fragment `name = expr` whose right-hand side —
resolved against the members seen so far — is a literal in Python `int(_, 0)`
syntax (decimal, `0x` hex, `0o` octal, `0b` binary, optionally signed) is
assigned that value, the counter continuing from it plus one; an alias to an
earlier member inherits exactly that member's value; each block's first
fragment, when unspecified, is assigned 0; but an explicit value in a base
`int(_, 0)` rejects — such as a bare-leading-zero C octal literal `017` —
raises an uncaught `ValueError` that aborts the whole resolution. -/
theorem c5_enum_values :
    ((EnumContainer.getEnums (("enum \x7b A, B = A, C \x7d").data)).map
        (fun en => (dictGet en.enums (("A").data), dictGet en.enums (("B").data),
          dictGet en.enums (("C").data))) =
      .ok (some ⟨("A").data, 0⟩, some ⟨("B").data, 0⟩, some ⟨("C").data, 1⟩)) ∧
    (∀ (en : EnumContainer) (v : Int) (frag : PyStr),
        cleanEnumFragment frag ≠ [] →
        ¬ (splitOnSub ['='] (cleanEnumFragment frag)).length > 1 →
        processEnumFragment (en, v) frag =
          .ok (⟨dictInsert (cleanEnumFragment frag) ⟨cleanEnumFragment frag, v⟩ en.enums⟩, v + 1)) ∧
    (∀ (en : EnumContainer) (w : Int) (frag e0 e1 : PyStr) (restE : List PyStr) (v : Int),
        splitOnSub ['='] (cleanEnumFragment frag) = e0 :: e1 :: restE →
        cleanEnumFragment frag ≠ [] →
        pyParseIntBase0 (en.getDefault (stripChars e1) (stripChars e1)) = some v →
        processEnumFragment (en, w) frag =
          .ok (⟨dictInsert (stripChars e0) ⟨stripChars e0, v⟩ en.enums⟩, v + 1)) ∧
    (∀ (en : EnumContainer) (w : Int) (frag e0 e1 : PyStr) (restE : List PyStr) (dv : EnumDef),
        splitOnSub ['='] (cleanEnumFragment frag) = e0 :: e1 :: restE →
        cleanEnumFragment frag ≠ [] →
        dictGet en.enums (stripChars e1) = some dv →
        processEnumFragment (en, w) frag =
          .ok (⟨dictInsert (stripChars e0) ⟨stripChars e0, dv.value⟩ en.enums⟩, dv.value + 1)) ∧
    (∀ (en : EnumContainer) (blockTxt f : PyStr) (rest : List PyStr),
        splitOnSub [','] blockTxt = f :: rest →
        cleanEnumFragment f ≠ [] →
        ¬ (splitOnSub ['='] (cleanEnumFragment f)).length > 1 →
        processEnumBlock en blockTxt =
          (processEnumBlockLoop (⟨dictInsert (cleanEnumFragment f) ⟨cleanEnumFragment f, 0⟩ en.enums⟩, 1) rest).map Prod.fst) ∧
    (∀ (en : EnumContainer) (w : Int) (frag e0 e1 : PyStr) (restE : List PyStr),
        splitOnSub ['='] (cleanEnumFragment frag) = e0 :: e1 :: restE →
        cleanEnumFragment frag ≠ [] →
        pyParseIntBase0 (en.getDefault (stripChars e1) (stripChars e1)) = none →
        processEnumFragment (en, w) frag = .error "ValueError: invalid literal for int") :=
  ⟨by decide,
   fun en v frag h1 h2 => processEnumFragment_unspec en v frag h1 h2,
   fun en w frag e0 e1 restE v h1 h2 h3 => processEnumFragment_explicit en w frag e0 e1 restE v h1 h2 h3,
   fun en w frag e0 e1 restE dv h1 h2 h3 => processEnumFragment_alias en w frag e0 e1 restE dv h1 h2 h3,
   fun en blockTxt f rest h1 h2 h3 => processEnumBlock_first_unspec en blockTxt f rest h1 h2 h3,
   fun en w frag e0 e1 restE h1 h2 h3 => processEnumFragment_badliteral en w frag e0 e1 restE h1 h2 h3⟩

/-- C5, counterexample: an explicit value in C octal syntax is not "an integer
literal in any C base" for this resolver — `int("017", 0)` rejects the bare
leading zero, and the uncaught `ValueError` aborts the whole enum resolution
instead of assigning 15. -/
theorem c5_octal_literal_raises :
    EnumContainer.getEnums (("enum \x7b A = 017 \x7d").data) =
      .error "ValueError: invalid literal for int" := by
  decide

/-- C5, witness: the sequential rule at an unspecified fragment `" Q "` with
counter 7, and the alias rule at `" R = Q "` against a container where `Q` has
value 5. -/
theorem c5_enum_values_witness :
    processEnumFragment (⟨[]⟩, 7) ((" Q ").data) =
        .ok (⟨dictInsert (("Q").data) ⟨("Q").data, 7⟩ []⟩, 8) ∧
      processEnumFragment (⟨[((("Q").data), ⟨("Q").data, 5⟩)]⟩, 9) ((" R = Q ").data) =
        .ok (⟨dictInsert (("R").data) ⟨("R").data, 5⟩ [((("Q").data), ⟨("Q").data, 5⟩)]⟩, 6) :=
  ⟨c5_enum_values.2.1 ⟨[]⟩ 7 ((" Q ").data) (by decide) (by decide),
   c5_enum_values.2.2.2.1 ⟨[((("Q").data), ⟨("Q").data, 5⟩)]⟩ 9 ((" R = Q ").data)
     (("R ").data) ((" Q").data) [] ⟨("Q").data, 5⟩ (by decide) (by decide) (by decide)⟩

theorem mem_nodes_addNode {g : DotGraph} {i : Nat} {l : PyStr} {x : Nat × PyStr}
    (h : x ∈ g.nodes) : x ∈ (g.addNode i l).nodes := by
  rw [addNode_nodes]
  exact List.mem_append_left _ h

theorem self_mem_nodes_addNode (g : DotGraph) (i : Nat) (l : PyStr) :
    (i, l) ∈ (g.addNode i l).nodes := by
  rw [addNode_nodes]
  exact List.mem_append_right _ (List.mem_singleton.mpr rfl)

theorem mem_nodes_addFunctionTransition {dot : DotGraph} {n : List PyStr} {index : Nat}
    {fn t : PyStr} {x : Nat × PyStr} (h : x ∈ dot.nodes) :
    x ∈ (addFunctionTransitionToGraph dot n index fn t).nodes := by
  rw [addFunctionTransitionToGraph]
  cases pyIndexOf t n with
  | none => exact h
  | some fi => exact mem_nodes_addNode (mem_nodes_addNode h)

theorem mem_nodes_transitionEdgesLoop {n : List PyStr} {index : Nat} {fn : PyStr} {x : Nat × PyStr} :
    ∀ (tl : List PyStr) {dot : DotGraph}, x ∈ dot.nodes →
      x ∈ (transitionEdgesLoop n index fn tl dot).nodes := by
  intro tl
  induction tl with
  | nil => intro dot h; exact h
  | cons t rest ih =>
    intro dot h
    rw [transitionEdgesLoop]
    exact ih (mem_nodes_addFunctionTransition h)

theorem mem_nodes_addCallNamesLoop (n removeList : List PyStr) (index : Nat) (sa raw : Bool)
    {x : Nat × PyStr} :
    ∀ (calls seen : List PyStr) {dot : DotGraph}, x ∈ dot.nodes →
      x ∈ (addCallNamesLoop n index removeList sa raw seen calls dot).nodes := by
  intro calls
  induction calls with
  | nil => intro seen dot h; exact h
  | cons call rest ih =>
    intro seen dot h
    rw [addCallNamesLoop]
    split
    · exact ih seen h
    · split
      · exact ih seen h
      · split
        · exact ih seen h
        · split
          · exact ih seen h
          · have h2 : x ∈ (if raw then dot.addNode index (n[index]?.getD []) else dot).nodes := by
              split
              · exact mem_nodes_addNode h
              · exact h
            cases pyIndexOf call n with
            | none => exact ih _ h2
            | some ci => exact ih _ (mem_nodes_addNode h2)

theorem mem_nodes_callbackArgsLoop {index : Nat} {tl al n : List PyStr} {x : Nat × PyStr} :
    ∀ (pend : List PyStr) {dot : DotGraph}, x ∈ dot.nodes →
      x ∈ (callbackArgsLoop index tl al n pend dot).nodes := by
  intro pend
  induction pend with
  | nil => intro dot h; exact h
  | cons fn rest ih =>
    intro dot h
    rw [callbackArgsLoop]
    split
    · cases pyIndexOf fn n with
      | none => exact ih h
      | some ci => exact ih (mem_nodes_addNode h)
    · exact ih h

theorem mem_nodes_addCallbacksLoop {n : List PyStr} {index : Nat} {tl : List PyStr}
    {x : Nat × PyStr} :
    ∀ (calls : List PyStr) {dot dot2 : DotGraph},
      addCallbacksLoop n index tl calls dot = .ok dot2 → x ∈ dot.nodes → x ∈ dot2.nodes := by
  intro calls
  induction calls with
  | nil =>
    intro dot dot2 h hx
    rw [addCallbacksLoop] at h
    cases h
    exact hx
  | cons cwa rest ih =>
    intro dot dot2 h hx
    rw [addCallbacksLoop] at h
    cases hsp : splitOnceChar '(' (replaceSub [' '] [] (replaceSub ['\n'] [] cwa)) with
    | none =>
      rw [hsp] at h
      exact Except.noConfusion h
    | some p =>
      rw [hsp] at h
      exact ih h (mem_nodes_callbackArgsLoop n hx)

theorem mem_nodes_addIndirectLoop {n : List PyStr} {index : Nat} {x : Nat × PyStr} :
    ∀ (pend seen : List PyStr) {dot : DotGraph}, x ∈ dot.nodes →
      x ∈ (addIndirectLoop n index seen pend dot).nodes := by
  intro pend
  induction pend with
  | nil => intro seen dot h; exact h
  | cons call rest ih =>
    intro seen dot h
    rw [addIndirectLoop]
    split
    · exact ih seen h
    · split
      · exact ih seen h
      · cases pyIndexOf call n with
        | none => exact ih _ (mem_nodes_addNode h)
        | some ci => exact ih _ (mem_nodes_addNode (mem_nodes_addNode h))

theorem mem_nodes_processFunction {ctx : BuildCtx} {body : PyStr} {index : Nat} {fn : PyStr}
    {dot dot2 : DotGraph} {x : Nat × PyStr}
    (h : processFunction ctx body dot index fn = .ok dot2) (hx : x ∈ dot.nodes) :
    x ∈ dot2.nodes := by
  rw [processFunction] at h
  cases htl : computeTransitionList ctx body with
  | error e =>
    rw [htl] at h
    exact Except.noConfusion h
  | ok tl0 =>
    rw [htl] at h
    cases hcb : addCallbacksToGraph
        (addCallNamesToGraph
          (transitionEdgesLoop ctx.funcNames index fn
            (tl0.filter (fun x => decide (x ∉ ctx.removeList))) dot)
          ctx.funcNames index body ctx.removeList ctx.setupAction ctx.rawActorFunc)
        ctx.funcNames index body (tl0.filter (fun x => decide (x ∉ ctx.removeList))) with
    | error e =>
      simp only [hcb] at h
      exact Except.noConfusion h
    | ok dot3 =>
      simp only [hcb] at h
      cases hif : getIndirectFunctionsInFunc body ctx.indirectMembers ctx.macros ctx.enums ctx.removeList with
      | error e =>
        simp only [hif] at h
        exact Except.noConfusion h
      | ok indirectFunctions =>
        simp only [hif] at h
        cases h
        have h1 : x ∈ (transitionEdgesLoop ctx.funcNames index fn
            (tl0.filter (fun x => decide (x ∉ ctx.removeList))) dot).nodes :=
          mem_nodes_transitionEdgesLoop _ hx
        have h2 := mem_nodes_addCallNamesLoop ctx.funcNames ctx.removeList index
          ctx.setupAction ctx.rawActorFunc (capture_call_names body) [] h1
        have h3 := mem_nodes_addCallbacksLoop (capture_calls body) hcb h2
        exact mem_nodes_addIndirectLoop indirectFunctions [] h3

theorem mem_nodes_buildGraphLoop {ctx : BuildCtx} {x : Nat × PyStr} :
    ∀ (l : List PyStr) (i : Nat) {dot g : DotGraph},
      buildGraphLoop ctx dot i l = .ok g → x ∈ dot.nodes → x ∈ g.nodes := by
  intro l
  induction l with
  | nil =>
    intro i dot g h hx
    rw [buildGraphLoop] at h
    cases h
    exact hx
  | cons fn rest ih =>
    intro i dot g h hx
    rw [buildGraphLoop] at h
    by_cases hrm : fn ∈ ctx.removeList
    · rw [if_pos hrm] at h
      exact ih (i + 1) h hx
    · rw [if_neg hrm] at h
      have hx1 : x ∈ (if ctx.loners then dot.addNode i fn else dot).nodes := by
        split
        · exact mem_nodes_addNode hx
        · exact hx
      cases hb : dictGet ctx.bodies fn with
      | none =>
        simp only [hb] at h
        exact Except.noConfusion h
      | some body =>
        simp only [hb] at h
        cases hp : processFunction ctx body (if ctx.loners then dot.addNode i fn else dot) i fn with
        | error e =>
          simp only [hp] at h
          exact Except.noConfusion h
        | ok dot2 =>
          simp only [hp] at h
          exact ih (i + 1) h (mem_nodes_processFunction hp hx1)

theorem mem_nodes_registerLifecycleLoop {x : Nat × PyStr} :
    ∀ (l : List PyStr) (i : Nat) {dot : DotGraph} {pref : PyStr}, x ∈ dot.nodes →
      x ∈ (registerLifecycleLoop i l dot pref).1.nodes := by
  intro l
  induction l with
  | nil => intro i dot pref h; exact h
  | cons fn rest ih =>
    intro i dot pref h
    rw [registerLifecycleLoop]
    split
    · exact ih (i + 1) (mem_nodes_addNode h)
    · split
      · exact ih (i + 1) (mem_nodes_addNode h)
      · exact ih (i + 1) h

theorem registerLifecycleLoop_lifecycle_mem :
    ∀ (l : List PyStr) (i : Nat) (dot : DotGraph) (pref : PyStr) (k : Nat) (fn : PyStr),
      l[k]? = some fn → isLifecycleName fn = true →
      (i + k, fn) ∈ (registerLifecycleLoop i l dot pref).1.nodes := by
  intro l
  induction l with
  | nil => intro i dot pref k fn hk _; simp at hk
  | cons f rest ih =>
    intro i dot pref k fn hk hlc
    cases k with
    | zero =>
      simp only [List.getElem?_cons_zero, Option.some.injEq] at hk
      subst hk
      rw [registerLifecycleLoop]
      rw [isLifecycleName, Bool.or_eq_true] at hlc
      rcases hlc with h1 | h2
      · rw [if_pos h1]
        exact mem_nodes_registerLifecycleLoop rest (i + 1)
          (by simpa using self_mem_nodes_addNode dot i f)
      · by_cases h1 : isLifecycleInit f = true
        · rw [if_pos h1]
          exact mem_nodes_registerLifecycleLoop rest (i + 1)
            (by simpa using self_mem_nodes_addNode dot i f)
        · rw [if_neg h1, if_pos h2]
          exact mem_nodes_registerLifecycleLoop rest (i + 1)
            (by simpa using self_mem_nodes_addNode dot i f)
    | succ k2 =>
      simp only [List.getElem?_cons_succ] at hk
      have hik : i + (k2 + 1) = (i + 1) + k2 := by omega
      rw [hik, registerLifecycleLoop]
      split
      · exact ih (i + 1) _ _ k2 fn hk hlc
      · split
        · exact ih (i + 1) _ _ k2 fn hk hlc
        · exact ih (i + 1) _ _ k2 fn hk hlc

theorem registerLifecycleLoop_edges :
    ∀ (l : List PyStr) (i : Nat) (dot : DotGraph) (pref : PyStr),
      (registerLifecycleLoop i l dot pref).1.edges = dot.edges := by
  intro l
  induction l with
  | nil => intro i dot pref; rfl
  | cons fn rest ih =>
    intro i dot pref
    rw [registerLifecycleLoop]
    split
    · rw [ih, addNode_edges]
    · split
      · rw [ih, addNode_edges]
      · rw [ih]

theorem buildGraphLoop_loner_mem {ctx : BuildCtx} (hl : ctx.loners = true) :
    ∀ (l : List PyStr) (i : Nat) {dot g : DotGraph} (k : Nat) (fn : PyStr),
      l[k]? = some fn → fn ∉ ctx.removeList →
      buildGraphLoop ctx dot i l = .ok g → (i + k, fn) ∈ g.nodes := by
  intro l
  induction l with
  | nil => intro i dot g k fn hk _ _; simp at hk
  | cons f rest ih =>
    intro i dot g k fn hk hrm h
    rw [buildGraphLoop] at h
    cases k with
    | zero =>
      simp only [List.getElem?_cons_zero, Option.some.injEq] at hk
      subst hk
      rw [if_neg hrm] at h
      cases hb : dictGet ctx.bodies f with
      | none =>
        simp only [hb] at h
        exact Except.noConfusion h
      | some body =>
        simp only [hb] at h
        cases hp : processFunction ctx body (if ctx.loners then dot.addNode i f else dot) i f with
        | error e =>
          simp only [hp] at h
          exact Except.noConfusion h
        | ok dot2 =>
          simp only [hp] at h
          have hx1 : (i + 0, f) ∈ (if ctx.loners then dot.addNode i f else dot).nodes := by
            rw [if_pos hl]
            simpa using self_mem_nodes_addNode dot i f
          exact mem_nodes_buildGraphLoop rest (i + 1) h (mem_nodes_processFunction hp hx1)
    | succ k2 =>
      simp only [List.getElem?_cons_succ] at hk
      have hik : i + (k2 + 1) = (i + 1) + k2 := by omega
      rw [hik]
      by_cases hrm2 : f ∈ ctx.removeList
      · rw [if_pos hrm2] at h
        exact ih (i + 1) k2 fn hk hrm h
      · rw [if_neg hrm2] at h
        cases hb : dictGet ctx.bodies f with
        | none =>
          simp only [hb] at h
          exact Except.noConfusion h
        | some body =>
          simp only [hb] at h
          cases hp : processFunction ctx body (if ctx.loners then dot.addNode i f else dot) i f with
          | error e =>
            simp only [hp] at h
            exact Except.noConfusion h
          | ok dot2 =>
            simp only [hp] at h
            exact ih (i + 1) k2 fn hk hrm h

theorem avoids_addFunctionTransition {n : List PyStr} {r : PyStr} {dot : DotGraph} {index : Nat}
    {fn t : PyStr} (hi : n[index]? = some fn) (hfn : fn ≠ r) (ht : t ≠ r)
    (h : graphAvoids n r dot) :
    graphAvoids n r (addFunctionTransitionToGraph dot n index fn t) := by
  rw [addFunctionTransitionToGraph]
  cases hidx : pyIndexOf t n with
  | none => exact h
  | some fi =>
    apply graphAvoids_addEdge (graphAvoids_addNode (graphAvoids_addNode h))
    constructor
    · show n[index]? ≠ some r
      rw [hi]
      intro hc
      exact hfn (Option.some.injEq _ _ ▸ hc)
    · intro _
      show n[fi]? ≠ some r
      rw [pyIndexOf_getElem hidx]
      intro hc
      exact ht (Option.some.injEq _ _ ▸ hc)

theorem avoids_transitionEdgesLoop {n : List PyStr} {r fn : PyStr} {index : Nat}
    (hi : n[index]? = some fn) (hfn : fn ≠ r) :
    ∀ (tl : List PyStr), (∀ t ∈ tl, t ≠ r) → ∀ {dot : DotGraph}, graphAvoids n r dot →
      graphAvoids n r (transitionEdgesLoop n index fn tl dot) := by
  intro tl
  induction tl with
  | nil => intro _ dot h; exact h
  | cons t rest ih =>
    intro htl dot h
    rw [transitionEdgesLoop]
    exact ih (fun x hx => htl x (List.mem_cons_of_mem _ hx))
      (avoids_addFunctionTransition hi hfn (htl t (List.mem_cons_self _ _)) h)

theorem avoids_addCallNamesLoop {n removeList : List PyStr} {r fn : PyStr} {index : Nat}
    (sa raw : Bool) (hi : n[index]? = some fn) (hfn : fn ≠ r) (hr : r ∈ removeList) :
    ∀ (calls seen : List PyStr) {dot : DotGraph}, graphAvoids n r dot →
      graphAvoids n r (addCallNamesLoop n index removeList sa raw seen calls dot) := by
  intro calls
  induction calls with
  | nil => intro seen dot h; exact h
  | cons call rest ih =>
    intro seen dot h
    rw [addCallNamesLoop]
    split
    · exact ih seen h
    · split
      · exact ih seen h
      · split
        · exact ih seen h
        · split
          · exact ih seen h
          · next hnotin hrm hbool =>
            have hcr : call ≠ r := fun he => hrm (he ▸ hr)
            have h2 : graphAvoids n r (if raw then dot.addNode index (n[index]?.getD []) else dot) := by
              split
              · exact graphAvoids_addNode h
              · exact h
            cases hci : pyIndexOf call n with
            | none => exact ih _ h2
            | some ci =>
              apply ih
              apply graphAvoids_addEdge (graphAvoids_addNode h2)
              constructor
              · show n[index]? ≠ some r
                rw [hi]
                intro hc
                exact hfn (Option.some.injEq _ _ ▸ hc)
              · intro _
                show n[ci]? ≠ some r
                rw [pyIndexOf_getElem hci]
                intro hc
                exact hcr (Option.some.injEq _ _ ▸ hc)

theorem avoids_callbackArgsLoop {n : List PyStr} {r fn : PyStr} {index : Nat}
    {tl al : List PyStr} (hi : n[index]? = some fn) (hfn : fn ≠ r) :
    ∀ (pend : List PyStr) {dot : DotGraph}, graphAvoids n r dot →
      graphAvoids n r (callbackArgsLoop index tl al n pend dot) := by
  intro pend
  induction pend with
  | nil => intro dot h; exact h
  | cons cb rest ih =>
    intro dot h
    rw [callbackArgsLoop]
    split
    · cases hci : pyIndexOf cb n with
      | none => exact ih h
      | some ci =>
        apply ih
        apply graphAvoids_addEdge (graphAvoids_addNode h)
        constructor
        · show n[index]? ≠ some r
          rw [hi]
          intro hc
          exact hfn (Option.some.injEq _ _ ▸ hc)
        · intro hcat
          exact absurd rfl hcat
    · exact ih h

theorem avoids_addCallbacksLoop {n : List PyStr} {r fn : PyStr} {index : Nat} {tl : List PyStr}
    (hi : n[index]? = some fn) (hfn : fn ≠ r) :
    ∀ (calls : List PyStr) {dot dot2 : DotGraph},
      addCallbacksLoop n index tl calls dot = .ok dot2 →
      graphAvoids n r dot → graphAvoids n r dot2 := by
  intro calls
  induction calls with
  | nil =>
    intro dot dot2 h hg
    rw [addCallbacksLoop] at h
    cases h
    exact hg
  | cons cwa rest ih =>
    intro dot dot2 h hg
    rw [addCallbacksLoop] at h
    cases hsp : splitOnceChar '(' (replaceSub [' '] [] (replaceSub ['\n'] [] cwa)) with
    | none =>
      rw [hsp] at h
      exact Except.noConfusion h
    | some p =>
      rw [hsp] at h
      exact ih h (avoids_callbackArgsLoop hi hfn n hg)

theorem indirect_fold_notin {removeList : List PyStr} :
    ∀ (vals acc : List PyStr), (∀ x ∈ acc, x ∉ removeList) →
      ∀ x ∈ vals.foldl (fun a nm => if nm ∉ a ∧ nm ∉ removeList then a ++ [nm] else a) acc,
        x ∉ removeList := by
  intro vals
  induction vals with
  | nil => intro acc hacc x hx; exact hacc x hx
  | cons v rest ih =>
    intro acc hacc x hx
    rw [List.foldl_cons] at hx
    refine ih (if v ∉ acc ∧ v ∉ removeList then acc ++ [v] else acc) ?_ x hx
    intro y hy
    split at hy
    · next hvc =>
      rcases List.mem_append.mp hy with h1 | h1
      · exact hacc y h1
      · rw [List.mem_singleton] at h1
        subst h1
        exact hvc.2
    · exact hacc y hy

theorem indirectFuncsLoop_notin {body : PyStr} {macros : MacrosContainer} {enums : EnumContainer}
    {removeList : List PyStr} :
    ∀ (members acc : List PyStr), (∀ x ∈ acc, x ∉ removeList) →
      ∀ {res : List PyStr},
        indirectFuncsLoop body macros enums removeList acc members = .ok res →
        ∀ x ∈ res, x ∉ removeList := by
  intro members
  induction members with
  | nil =>
    intro acc hacc res h
    rw [indirectFuncsLoop] at h
    cases h
    exact hacc
  | cons member rest ih =>
    intro acc hacc res h
    rw [indirectFuncsLoop] at h
    cases hv : action_var_values_in_func body member macros enums with
    | error e =>
      rw [hv] at h
      exact Except.noConfusion h
    | ok vals =>
      rw [hv] at h
      exact ih _ (indirect_fold_notin vals acc hacc) h

theorem avoids_addIndirectLoop {n : List PyStr} {r fn : PyStr} {index : Nat}
    (hi : n[index]? = some fn) (hfn : fn ≠ r) :
    ∀ (pend : List PyStr), (∀ x ∈ pend, x ≠ r) →
      ∀ (seen : List PyStr) {dot : DotGraph}, graphAvoids n r dot →
        graphAvoids n r (addIndirectLoop n index seen pend dot) := by
  intro pend
  induction pend with
  | nil => intro _ seen dot h; exact h
  | cons call rest ih =>
    intro hp seen dot h
    rw [addIndirectLoop]
    have hrest : ∀ x ∈ rest, x ≠ r := fun x hx => hp x (List.mem_cons_of_mem _ hx)
    split
    · exact ih hrest seen h
    · split
      · exact ih hrest seen h
      · cases hci : pyIndexOf call n with
        | none => exact ih hrest _ (graphAvoids_addNode h)
        | some ci =>
          apply ih hrest
          apply graphAvoids_addEdge (graphAvoids_addNode (graphAvoids_addNode h))
          constructor
          · show n[index]? ≠ some r
            rw [hi]
            intro hc
            exact hfn (Option.some.injEq _ _ ▸ hc)
          · intro _
            show n[ci]? ≠ some r
            rw [pyIndexOf_getElem hci]
            intro hc
            exact hp call (List.mem_cons_self _ _) (Option.some.injEq _ _ ▸ hc)

theorem avoids_processFunction {ctx : BuildCtx} {r fn : PyStr} {index : Nat} {body : PyStr}
    {dot dot2 : DotGraph} (hi : ctx.funcNames[index]? = some fn) (hfn : fn ≠ r)
    (hr : r ∈ ctx.removeList) (h : processFunction ctx body dot index fn = .ok dot2)
    (hg : graphAvoids ctx.funcNames r dot) : graphAvoids ctx.funcNames r dot2 := by
  rw [processFunction] at h
  cases htl : computeTransitionList ctx body with
  | error e =>
    rw [htl] at h
    exact Except.noConfusion h
  | ok tl0 =>
    rw [htl] at h
    have hfilter : ∀ t ∈ tl0.filter (fun x => decide (x ∉ ctx.removeList)), t ≠ r := by
      intro t ht hteq
      subst hteq
      have hdec := List.of_mem_filter ht
      exact (of_decide_eq_true hdec) hr
    have h1 := avoids_transitionEdgesLoop hi hfn _ hfilter hg
    have h2 := avoids_addCallNamesLoop ctx.setupAction ctx.rawActorFunc
      hi hfn hr (capture_call_names body) [] h1
    cases hcb : addCallbacksToGraph
        (addCallNamesToGraph
          (transitionEdgesLoop ctx.funcNames index fn
            (tl0.filter (fun x => decide (x ∉ ctx.removeList))) dot)
          ctx.funcNames index body ctx.removeList ctx.setupAction ctx.rawActorFunc)
        ctx.funcNames index body (tl0.filter (fun x => decide (x ∉ ctx.removeList))) with
    | error e =>
      simp only [hcb] at h
      exact Except.noConfusion h
    | ok dot3 =>
      simp only [hcb] at h
      cases hif : getIndirectFunctionsInFunc body ctx.indirectMembers ctx.macros ctx.enums ctx.removeList with
      | error e =>
        simp only [hif] at h
        exact Except.noConfusion h
      | ok indirectFunctions =>
        simp only [hif] at h
        cases h
        have h3 := avoids_addCallbacksLoop hi hfn (capture_calls body) hcb h2
        have hnotin : ∀ x ∈ indirectFunctions, x ≠ r := by
          intro x hx hxe
          subst hxe
          exact indirectFuncsLoop_notin ctx.indirectMembers [] (by intro y hy; cases hy) hif x hx hr
        exact avoids_addIndirectLoop hi hfn indirectFunctions hnotin [] h3

theorem avoids_buildGraphLoop {ctx : BuildCtx} {r : PyStr} (hr : r ∈ ctx.removeList) :
    ∀ (l : List PyStr) (i : Nat) {dot g : DotGraph},
      (∀ k x, l[k]? = some x → ctx.funcNames[i + k]? = some x) →
      buildGraphLoop ctx dot i l = .ok g →
      graphAvoids ctx.funcNames r dot → graphAvoids ctx.funcNames r g := by
  intro l
  induction l with
  | nil =>
    intro i dot g _ h hg
    rw [buildGraphLoop] at h
    cases h
    exact hg
  | cons fn rest ih =>
    intro i dot g hsub h hg
    rw [buildGraphLoop] at h
    have hsub2 : ∀ k x, rest[k]? = some x → ctx.funcNames[(i + 1) + k]? = some x := by
      intro k x hk
      have := hsub (k + 1) x (by simpa using hk)
      rwa [show i + (k + 1) = (i + 1) + k by omega] at this
    by_cases hrm : fn ∈ ctx.removeList
    · rw [if_pos hrm] at h
      exact ih (i + 1) hsub2 h hg
    · rw [if_neg hrm] at h
      have hfn : ctx.funcNames[i]? = some fn := by
        have := hsub 0 fn (by simp)
        simpa using this
      have hfnr : fn ≠ r := fun he => hrm (he ▸ hr)
      have hg1 : graphAvoids ctx.funcNames r (if ctx.loners then dot.addNode i fn else dot) := by
        split
        · exact graphAvoids_addNode hg
        · exact hg
      cases hb : dictGet ctx.bodies fn with
      | none =>
        simp only [hb] at h
        exact Except.noConfusion h
      | some body =>
        simp only [hb] at h
        cases hp : processFunction ctx body (if ctx.loners then dot.addNode i fn else dot) i fn with
        | error e =>
          simp only [hp] at h
          exact Except.noConfusion h
        | ok dot2 =>
          simp only [hp] at h
          exact ih (i + 1) hsub2 h (avoids_processFunction hfn hfnr hr hp hg1)

theorem except_if_error_ok {α : Type} {c : Prop} [Decidable c] {s : String} {x : Except String α}
    {g : α} (h : (if c then Except.error s else x) = .ok g) : x = .ok g := by
  by_cases hc : c
  · rw [if_pos hc] at h
    exact Except.noConfusion h
  · rwa [if_neg hc] at h

theorem buildGraph_removed_avoids {contents : PyStr} {loners : Bool}
    {argsRemove : Option (List PyStr)} {arr : ArrayPatternInput} {g : DotGraph} {r : PyStr}
    (h : buildGraph contents loners argsRemove arr = .ok g)
    (hr : r ∈ buildRemoveList argsRemove) :
    graphAvoids (capture_definition_names contents) r g := by
  simp only [buildGraph] at h
  cases h1 : setup_line_numbers contents (capture_definition_names contents)
      (setup_func_definitions contents (capture_definition_names contents)) with
  | error e =>
    rw [h1] at h
    exact Except.noConfusion h
  | ok lineNumbers =>
    rw [h1] at h
    cases h2 : EnumContainer.getEnums contents with
    | error e =>
      rw [h2] at h
      exact Except.noConfusion h
    | ok enums =>
      rw [h2] at h
      replace h := except_if_error_ok h
      cases h3 : computeBodiesLoop contents (capture_definition_names contents) lineNumbers
          ([], []) (capture_definition_names contents) with
      | error e =>
        simp only [h3] at h
        exact Except.noConfusion h
      | ok bi =>
        simp only [h3] at h
        refine avoids_buildGraphLoop hr (capture_definition_names contents) 0 ?_ h ?_
        · intro k x hk
          simpa using hk
        · intro e he
          rw [registerLifecycleLoop_edges] at he
          exact absurd he (List.not_mem_nil e)

/-- C2, counterexample: the unconditional lifecycle-node registration ignores
the removal list, so running on a file whose only function is `Foo_Init` with
removal list `["Foo_Init"]` still puts a node labelled `Foo_Init` in the graph
— the removed name is not absent from the nodes. -/
theorem c2_removed_lifecycle_node_present :
    buildGraph c2content false (some [("Foo_Init").data]) arrNone = .ok c2graph ∧
      (0, ("Foo_Init").data) ∈ c2graph.nodes ∧
      ("Foo_Init").data ∈ capture_definition_names c2content := by
  refine ⟨by decide, by decide, by decide⟩

/-- C2, amended: a name on the removal list is never the source of any edge and
never the destination of a transition, call, or indirectMember edge; it can
still appear in the graph — as a node, when it carries a lifecycle suffix
(registered unconditionally) or is the target of a callback edge, and as the
destination of callback edges, which are not filtered by the removal list. -/
theorem c2_removed_names_amended :
    ∀ (contents : PyStr) (loners : Bool) (argsRemove : Option (List PyStr))
      (arr : ArrayPatternInput) (g : DotGraph) (r : PyStr),
      buildGraph contents loners argsRemove arr = .ok g →
      r ∈ buildRemoveList argsRemove →
      graphAvoids (capture_definition_names contents) r g :=
  fun _ _ _ _ _ _ h hr => buildGraph_removed_avoids h hr

/-- C2, witness: the amended theorem on `contentEx` (whose produced graph has a
transition and a call edge) for the always-removed name `NULL`. -/
theorem c2_removed_names_amended_witness :
    buildGraph contentEx false none arrNone = .ok contentExGraph ∧
      graphAvoids (capture_definition_names contentEx) (("NULL").data) contentExGraph :=
  ⟨by decide,
   c2_removed_names_amended contentEx false none arrNone contentExGraph (("NULL").data)
     (by decide) (by decide)⟩

/-- C9, counterexample: with `--loners` and removal list `["Foo_Wait"]`, the
extracted non-lifecycle function `Foo_Wait` is skipped before the loners node
registration, so it is not registered — "every extracted function is
registered" fails for removed functions. -/
theorem c9_loners_removed_not_registered :
    buildGraph contentEx true (some [("Foo_Wait").data]) arrNone = .ok contentExLonersRemovedGraph ∧
      ("Foo_Wait").data ∈ capture_definition_names contentEx ∧
      (∀ p ∈ contentExLonersRemovedGraph.nodes, p.2 ≠ ("Foo_Wait").data) := by
  refine ⟨by decide, by decide, by decide⟩

/-- C9, amended: every extracted function with a `_Init`/`_Update`/`_Draw`/
`_Destroy` suffix is registered as a node unconditionally — before and
independent of edge discovery, even when it is on the removal list; with the
loners option, every extracted function *not on the removal list* is registered
regardless of connectivity. -/
theorem c9_node_registration_amended :
    ∀ (contents : PyStr) (loners : Bool) (argsRemove : Option (List PyStr))
      (arr : ArrayPatternInput) (g : DotGraph),
      buildGraph contents loners argsRemove arr = .ok g →
      (∀ (i : Nat) (fn : PyStr), (capture_definition_names contents)[i]? = some fn →
        isLifecycleName fn = true → (i, fn) ∈ g.nodes) ∧
      (loners = true → ∀ (i : Nat) (fn : PyStr),
        (capture_definition_names contents)[i]? = some fn →
        fn ∉ buildRemoveList argsRemove → (i, fn) ∈ g.nodes) := by
  intro contents loners argsRemove arr g h
  simp only [buildGraph] at h
  cases h1 : setup_line_numbers contents (capture_definition_names contents)
      (setup_func_definitions contents (capture_definition_names contents)) with
  | error e =>
    rw [h1] at h
    exact Except.noConfusion h
  | ok lineNumbers =>
    rw [h1] at h
    cases h2 : EnumContainer.getEnums contents with
    | error e =>
      rw [h2] at h
      exact Except.noConfusion h
    | ok enums =>
      rw [h2] at h
      replace h := except_if_error_ok h
      cases h3 : computeBodiesLoop contents (capture_definition_names contents) lineNumbers
          ([], []) (capture_definition_names contents) with
      | error e =>
        simp only [h3] at h
        exact Except.noConfusion h
      | ok bi =>
        simp only [h3] at h
        constructor
        · intro i fn hi hlc
          have hreg := registerLifecycleLoop_lifecycle_mem (capture_definition_names contents)
            0 ⟨[], []⟩ [] i fn hi hlc
          rw [Nat.zero_add] at hreg
          exact mem_nodes_buildGraphLoop (capture_definition_names contents) 0 h hreg
        · intro hl i fn hi hrm
          have hmem := buildGraphLoop_loner_mem hl (capture_definition_names contents) 0 i fn hi hrm h
          rwa [Nat.zero_add] at hmem

/-- C9, witness: the amended theorem on `contentEx` with `--loners` — the
lifecycle function `Foo_Init` and the surviving non-lifecycle `Foo_Wait` are
both registered. -/
theorem c9_node_registration_amended_witness :
    buildGraph contentEx true none arrNone = .ok contentExLonersGraph ∧
      (0, ("Foo_Init").data) ∈ contentExLonersGraph.nodes ∧
      (1, ("Foo_Wait").data) ∈ contentExLonersGraph.nodes :=
  ⟨by decide,
   (c9_node_registration_amended contentEx true none arrNone contentExLonersGraph (by decide)).1 0
     (("Foo_Init").data) (by decide) (by decide),
   (c9_node_registration_amended contentEx true none arrNone contentExLonersGraph (by decide)).2 rfl 1
     (("Foo_Wait").data) (by decide) (by decide)⟩

/-- C10: `"NULL"` is appended to the removal list on every invocation (with or
without a user-supplied removal option), and consequently no transition edge
and no indirectMember edge of any produced graph ever points at an index whose
function name is `NULL` — resolved assignment/transition targets equal to
`NULL` are filtered out before edges are emitted. -/
theorem c10_null_always_removed :
    (∀ argsRemove : Option (List PyStr), ("NULL").data ∈ buildRemoveList argsRemove) ∧
      (∀ (contents : PyStr) (loners : Bool) (argsRemove : Option (List PyStr))
        (arr : ArrayPatternInput) (g : DotGraph),
        buildGraph contents loners argsRemove arr = .ok g →
        ∀ e ∈ g.edges, e.cat = EdgeCat.transition ∨ e.cat = EdgeCat.indirectMember →
          (capture_definition_names contents)[e.dst]? ≠ some (("NULL").data)) := by
  constructor
  · intro argsRemove
    rw [buildRemoveList.eq_def]
    exact List.mem_append_right _ (List.mem_singleton.mpr rfl)
  · intro contents loners argsRemove arr g h e he hcat
    have hnull : ("NULL").data ∈ buildRemoveList argsRemove := by
      rw [buildRemoveList.eq_def]
      exact List.mem_append_right _ (List.mem_singleton.mpr rfl)
    refine (buildGraph_removed_avoids h hnull e he).2 ?_
    rcases hcat with h1 | h1 <;> rw [h1] <;> intro hc <;> exact EdgeCat.noConfusion hc

/-- C10, witness: the theorem on `contentEx`, whose graph contains a transition
edge; `NULL` is in the default removal list and no transition/indirectMember
edge of the produced graph points at a `NULL`-labelled index. -/
theorem c10_null_always_removed_witness :
    ("NULL").data ∈ buildRemoveList none ∧
      (buildGraph contentEx false none arrNone = .ok contentExGraph ∧
        ∀ e ∈ contentExGraph.edges,
          e.cat = EdgeCat.transition ∨ e.cat = EdgeCat.indirectMember →
          (capture_definition_names contentEx)[e.dst]? ≠ some (("NULL").data)) :=
  ⟨c10_null_always_removed.1 none,
   by decide,
   fun e he hc =>
     c10_null_always_removed.2 contentEx false none arrNone contentExGraph (by decide) e he hc⟩
